import Mathlib

/-!
# httpbun: request router (`mux`) and Digest response hash (`bun`)

A shallow embedding of `src/mux/mux.go` and of the pure function exercised by
`TestComputeDigestAuthResponse` in `src/bun/bun_test.go`.

Conventions of the embedding

* Go strings are Lean strings; `strings.HasPrefix`, `strings.TrimPrefix` and
  `strings.Split` are defined on the character lists.
* A handler `func(ex *Exchange)` is a state transformer: it receives the
  exchange and the rest of the world `σ`, and returns both as it left them.
* An `http.ResponseWriter` is the list of operations performed on it so far.
* `ServeHTTP` additionally records the list of steps the router itself took
  (`Outcome.trace`); the trace is not consulted by the router.
* Functions of the Go standard library whose result the router only passes on
  are parameters (`Stdlib`); `plainStdlib` instantiates them for the concrete
  requests and patterns evaluated below.
* `log.Printf` calls have no effect on the response and are left out.
-/

set_option autoImplicit false

namespace Httpbun

/-! ## Go `strings` -/

/-- Go `strings.HasPrefix(s, prefix)`. -/
def HasPrefix (s pre : String) : Bool :=
  pre.data.isPrefixOf s.data

/-- Go `strings.TrimPrefix(s, prefix)`: `s[len(prefix):]` when `s` starts with
`prefix`, else `s`. -/
def TrimPrefix (s pre : String) : String :=
  if HasPrefix s pre then ⟨s.data.drop pre.data.length⟩ else s

/-- Pieces of a character list between occurrences of `sep`. -/
def splitChars (sep : Char) : List Char → List (List Char)
  | [] => [[]]
  | c :: cs =>
    if c = sep then [] :: splitChars sep cs
    else
      match splitChars sep cs with
      | h :: t => (c :: h) :: t
      | [] => [[c]]

/-- Go `strings.Split(s, sep)` for a one-character separator. -/
def Split (s : String) (sep : Char) : List String :=
  (splitChars sep s.data).map String.mk

/-! ## Go `crypto/md5` and `encoding/hex` (RFC 1321) -/

namespace MD5

/-- The sine table: `K[i] = floor(2^32 * |sin (i + 1)|)`. -/
def K : List Nat := [
  0xd76aa478, 0xe8c7b756, 0x242070db, 0xc1bdceee,
  0xf57c0faf, 0x4787c62a, 0xa8304613, 0xfd469501,
  0x698098d8, 0x8b44f7af, 0xffff5bb1, 0x895cd7be,
  0x6b901122, 0xfd987193, 0xa679438e, 0x49b40821,
  0xf61e2562, 0xc040b340, 0x265e5a51, 0xe9b6c7aa,
  0xd62f105d, 0x02441453, 0xd8a1e681, 0xe7d3fbc8,
  0x21e1cde6, 0xc33707d6, 0xf4d50d87, 0x455a14ed,
  0xa9e3e905, 0xfcefa3f8, 0x676f02d9, 0x8d2a4c8a,
  0xfffa3942, 0x8771f681, 0x6d9d6122, 0xfde5380c,
  0xa4beea44, 0x4bdecfa9, 0xf6bb4b60, 0xbebfbc70,
  0x289b7ec6, 0xeaa127fa, 0xd4ef3085, 0x04881d05,
  0xd9d4d039, 0xe6db99e5, 0x1fa27cf8, 0xc4ac5665,
  0xf4292244, 0x432aff97, 0xab9423a7, 0xfc93a039,
  0x655b59c3, 0x8f0ccc92, 0xffeff47d, 0x85845dd1,
  0x6fa87e4f, 0xfe2ce6e0, 0xa3014314, 0x4e0811a1,
  0xf7537e82, 0xbd3af235, 0x2ad7d2bb, 0xeb86d391]

/-- Per-round left-rotation amounts. -/
def S : List Nat := [
  7, 12, 17, 22, 7, 12, 17, 22, 7, 12, 17, 22, 7, 12, 17, 22,
  5, 9, 14, 20, 5, 9, 14, 20, 5, 9, 14, 20, 5, 9, 14, 20,
  4, 11, 16, 23, 4, 11, 16, 23, 4, 11, 16, 23, 4, 11, 16, 23,
  6, 10, 15, 21, 6, 10, 15, 21, 6, 10, 15, 21, 6, 10, 15, 21]

/-- All ones in 32 bits; `x ^^^ mask` is the 32-bit complement of `x`. -/
def mask : Nat := 0xffffffff

/-- Rotate a 32-bit word left by `n` bits. -/
def rotl (x n : Nat) : Nat :=
  ((x <<< n) ||| (x >>> (32 - n))) % 2 ^ 32

/-- The four chaining words. -/
structure St where
  a : Nat
  b : Nat
  c : Nat
  d : Nat
deriving DecidableEq, Repr

/-- The round functions F, G, H, I of RFC 1321, selected by the step number. -/
def mix (i b c d : Nat) : Nat :=
  if i < 16 then (b &&& c) ||| ((b ^^^ mask) &&& d)
  else if i < 32 then (d &&& b) ||| ((d ^^^ mask) &&& c)
  else if i < 48 then b ^^^ c ^^^ d
  else c ^^^ (b ||| (d ^^^ mask))

/-- Which message word step `i` reads. -/
def idx (i : Nat) : Nat :=
  if i < 16 then i
  else if i < 32 then (5 * i + 1) % 16
  else if i < 48 then (3 * i + 5) % 16
  else (7 * i) % 16

/-- One of the 64 steps on the message words `m`. -/
def round (m : List Nat) (st : St) (i : Nat) : St :=
  let f := (mix i st.b st.c st.d + st.a + K.getD i 0 + m.getD (idx i) 0) % 2 ^ 32
  ⟨st.d, (st.b + rotl f (S.getD i 0)) % 2 ^ 32, st.b, st.c⟩

/-- Little-endian 32-bit word of four bytes. -/
def word : List Nat → Nat
  | [b0, b1, b2, b3] => b0 + 256 * b1 + 65536 * b2 + 16777216 * b3
  | _ => 0

/-- The first `n` little-endian words of a byte list. -/
def words : Nat → List Nat → List Nat
  | 0, _ => []
  | n + 1, bs => word (bs.take 4) :: words n (bs.drop 4)

/-- Compress one 64-byte block into the chaining state. -/
def block (st : St) (bs : List Nat) : St :=
  let r := (List.range 64).foldl (round (words 16 bs)) st
  ⟨(st.a + r.a) % 2 ^ 32, (st.b + r.b) % 2 ^ 32, (st.c + r.c) % 2 ^ 32, (st.d + r.d) % 2 ^ 32⟩

/-- Compress `n` consecutive blocks. -/
def blocks : Nat → St → List Nat → St
  | 0, st, _ => st
  | n + 1, st, bs => blocks n (block st (bs.take 64)) (bs.drop 64)

/-- The `k` low bytes of `n`, least significant first. -/
def le (n : Nat) : Nat → List Nat
  | 0 => []
  | k + 1 => n % 256 :: le (n / 256) k

/-- Padding: a `0x80` byte, zeros up to 56 mod 64, then the bit length in 8
little-endian bytes. -/
def pad (bs : List Nat) : List Nat :=
  bs ++ 0x80 :: List.replicate ((55 + 64 - bs.length % 64) % 64) 0 ++ le (8 * bs.length % 2 ^ 64) 8

/-- Initial chaining state. -/
def init : St := ⟨0x67452301, 0xefcdab89, 0x98badcfe, 0x10325476⟩

/-- Go `md5.Sum`: the 16-byte digest of a byte list. -/
def Sum (bs : List Nat) : List Nat :=
  let p := pad bs
  let r := blocks (p.length / 64) init p
  le r.a 4 ++ le r.b 4 ++ le r.c 4 ++ le r.d 4

/-- One lowercase hexadecimal digit. -/
def hexDigit (n : Nat) : Char :=
  if n < 10 then Char.ofNat (48 + n) else Char.ofNat (87 + n)

/-- Go `hex.EncodeToString`: two lowercase hex digits per byte. -/
def EncodeToString (bs : List Nat) : String :=
  ⟨bs.flatMap fun b => [hexDigit (b / 16), hexDigit (b % 16)]⟩

/-- UTF-8 encoding of one character. -/
def utf8 (c : Char) : List Nat :=
  let n := c.toNat
  if n < 0x80 then [n]
  else if n < 0x800 then [0xC0 + n / 64, 0x80 + n % 64]
  else if n < 0x10000 then [0xE0 + n / 4096, 0x80 + n / 64 % 64, 0x80 + n % 64]
  else [0xF0 + n / 262144, 0x80 + n / 4096 % 64, 0x80 + n / 64 % 64, 0x80 + n % 64]

/-- The bytes of a string, `[]byte(s)`. -/
def bytes (s : String) : List Nat :=
  s.data.flatMap utf8

/-- Lowercase hex MD5 of a string. -/
def hexSum (s : String) : String :=
  EncodeToString (Sum (bytes s))

end MD5

/-! ## Package `bun`: the Digest response hash -/

/-- The realm of the Digest challenge, as asserted by `TestDigestAuthWithoutCreds`
(`Digest realm="testrealm@host.com"`). -/
def digestRealm : String := "testrealm@host.com"

/-- Modelled from the spec: `computeDigestAuthResponse` of package `bun`, whose
body is not among the sources (only its test is). Section 4.4 gives
`HA1 = hex(MD5("user:realm:pass"))`, `HA2 = hex(MD5("method:uri"))` and
`expected = hex(MD5("HA1:nonce:nc:cnonce:qop:HA2"))`; the argument order is that
of the call in `TestComputeDigestAuthResponse`. -/
def computeDigestAuthResponse (username password nonce nc cnonce qop method uri : String) :
    String :=
  let ha1 := MD5.hexSum (username ++ ":" ++ digestRealm ++ ":" ++ password)
  let ha2 := MD5.hexSum (method ++ ":" ++ uri)
  MD5.hexSum (ha1 ++ ":" ++ nonce ++ ":" ++ nc ++ ":" ++ cnonce ++ ":" ++ qop ++ ":" ++ ha2)

/-! ## Go `regexp`

`regexp.Regexp` is a type of the Go standard library. The router uses two of
its methods, and `Regexp` below is exactly that interface; the compiler itself
is a parameter of the model (`Stdlib.MustCompile`). `MustCompile` below is a
model of the compiler on a fragment of the RE2 syntax: literals, escaped
punctuation, the Perl classes `\d`, `\w`, `\s` and their negations, `.`,
bracket expressions of characters, ranges and Perl classes, `^`, `$`,
concatenation, `|`, the greedy `*`, `+`, `?`, and the groups `( )`, `(?: )`,
`(?P<name> )`, with leftmost-first matching. On a pattern outside the fragment
the model is silent: it neither compiles it nor reports a panic. -/

/-- The part of a compiled `regexp.Regexp` the router uses. `SubexpNames` has
one entry per capture group preceded by the entry for the whole match, and
`FindStringSubmatch` returns either nil (`none`) or a slice of that length. -/
structure Regexp where
  SubexpNames : List String
  FindStringSubmatch : String → Option (List String)
  length_eq : ∀ s m, FindStringSubmatch s = some m → m.length = SubexpNames.length

namespace regexp

/-- Syntax tree of the modelled fragment. `loop a` is the tail of a repetition,
entered after its first iteration; the parser does not produce it. -/
inductive Node where
  | empty
  | lit (c : Char)
  | any
  | cls (neg : Bool) (ranges : List (Char × Char))
  | bol
  | eol
  | cat (a b : Node)
  | alt (a b : Node)
  | star (a : Node)
  | plus (a : Node)
  | opt (a : Node)
  | group (index : Nat) (a : Node)
  | loop (a : Node)
deriving Repr, DecidableEq

/-- Parser state: the unread pattern and the names of the capture groups
opened so far (`""` for an unnamed group). -/
structure PState where
  rest : List Char
  names : List String
deriving Repr

/-- ASCII letter, digit or underscore. -/
def isWordChar (c : Char) : Bool :=
  c == '_' || ('0' ≤ c && c ≤ '9') || ('A' ≤ c && c ≤ 'Z') || ('a' ≤ c && c ≤ 'z')

/-- A character that a backslash turns into itself: ASCII and not a letter or
digit. -/
def isEscapable (c : Char) : Bool :=
  c.toNat < 0x80 && (c == '_' || !isWordChar c)

/-- The ranges of the Perl classes `\d`, `\w` and `\s`, which are ASCII-only
in Go: `[0-9]`, `[0-9A-Za-z_]` and `[\t\n\f\r ]`. -/
def perlClass (c : Char) : Option (List (Char × Char)) :=
  if c = 'd' then some [('0', '9')]
  else if c = 'w' then some [('0', '9'), ('A', 'Z'), ('_', '_'), ('a', 'z')]
  else if c = 's' then some [('\t', '\n'), ('\x0c', '\r'), (' ', ' ')]
  else none

/-- Read a capture name up to the closing angle bracket. -/
def parseName : List Char → List Char → Option (String × List Char)
  | _, [] => none
  | acc, c :: cs =>
    if c = '>' then (if acc = [] then none else some (⟨acc.reverse⟩, cs))
    else if isWordChar c then parseName (c :: acc) cs
    else none

/-- Items of a bracket expression up to the closing bracket. -/
def parseClass : List (Char × Char) → List Char → Option (List (Char × Char) × List Char)
  | _, [] => none
  | acc, ']' :: cs => if acc = [] then parseClass [(']', ']')] cs else some (acc.reverse, cs)
  | acc, '\\' :: c :: cs =>
    match perlClass c with
    | some rs => parseClass (rs.reverse ++ acc) cs
    | none => none
  | _, '\\' :: [] => none
  | _, '[' :: _ => none
  | acc, a :: '-' :: ']' :: cs => some ((('-', '-') :: (a, a) :: acc).reverse, cs)
  | acc, a :: '-' :: b :: cs =>
    if b = '\\' ∨ b = '[' then none
    else if b < a then none else parseClass ((a, b) :: acc) cs
  | acc, a :: cs => parseClass ((a, a) :: acc) cs

/-- A repetition operator following an atom. A second operator in a row is
either a nested repetition, which Go rejects, or a non-greedy form, which is
outside the fragment. -/
def parseRep (a : Node) : List Char → Option (Node × List Char)
  | '{' :: _ => none
  | c :: r =>
    if c = '*' ∨ c = '+' ∨ c = '?' then
      match r with
      | d :: _ =>
        if d = '*' ∨ d = '+' ∨ d = '?' ∨ d = '{' then none
        else some (if c = '*' then .star a else if c = '+' then .plus a else .opt a, r)
      | [] => some (if c = '*' then .star a else if c = '+' then .plus a else .opt a, r)
    else some (a, c :: r)
  | [] => some (a, [])

mutual
/-- Alternation: branches separated by `|`, the loosest-binding operator. -/
def parseAlt : Nat → PState → Option (Node × PState)
  | 0, _ => none
  | f + 1, st =>
    match parseCat f st with
    | none => none
    | some (a, st1) =>
      match st1.rest with
      | '|' :: r =>
        match parseAlt f { st1 with rest := r } with
        | none => none
        | some (b, st2) => some (.alt a b, st2)
      | _ => some (a, st1)
/-- Concatenation of repeated atoms, up to `|`, `)` or the end. -/
def parseCat : Nat → PState → Option (Node × PState)
  | 0, _ => none
  | f + 1, st =>
    match st.rest with
    | [] => some (.empty, st)
    | '|' :: _ => some (.empty, st)
    | ')' :: _ => some (.empty, st)
    | _ =>
      match parseAtom f st with
      | none => none
      | some (a, st1) =>
        match parseRep a st1.rest with
        | none => none
        | some (a1, r) =>
          match parseCat f { st1 with rest := r } with
          | none => none
          | some (b, st2) => some (.cat a1 b, st2)
/-- One atom: a group, a bracket expression, `.`, `^`, `$`, an escape or a
literal. -/
def parseAtom : Nat → PState → Option (Node × PState)
  | 0, _ => none
  | f + 1, st =>
    match st.rest with
    | [] => none
    | '(' :: '?' :: ':' :: r => parseClose f .none { st with rest := r }
    | '(' :: '?' :: 'P' :: '<' :: r =>
      match parseName [] r with
      | none => none
      | some (name, r1) =>
        parseClose f (.some (st.names.length + 1)) { rest := r1, names := st.names ++ [name] }
    | '(' :: '?' :: _ => none
    | '(' :: r =>
      parseClose f (.some (st.names.length + 1)) { rest := r, names := st.names ++ [""] }
    | '[' :: '^' :: r =>
      match parseClass [] r with
      | none => none
      | some (rs, r1) => some (.cls true rs, { st with rest := r1 })
    | '[' :: r =>
      match parseClass [] r with
      | none => none
      | some (rs, r1) => some (.cls false rs, { st with rest := r1 })
    | '.' :: r => some (.any, { st with rest := r })
    | '^' :: r => some (.bol, { st with rest := r })
    | '$' :: r => some (.eol, { st with rest := r })
    | '\\' :: c :: r =>
      if isEscapable c then some (.lit c, { st with rest := r })
      else
        match perlClass c, perlClass c.toLower with
        | some rs, _ => some (.cls false rs, { st with rest := r })
        | none, some rs => some (.cls true rs, { st with rest := r })
        | none, none => none
    | '\\' :: [] => none
    | '*' :: _ => none
    | '+' :: _ => none
    | '?' :: _ => none
    | '{' :: _ => none
    | c :: r => some (.lit c, { st with rest := r })
/-- The body of a group and its closing parenthesis. -/
def parseClose : Nat → Option Nat → PState → Option (Node × PState)
  | 0, _, _ => none
  | f + 1, cap, st =>
    match parseAlt f st with
    | none => none
    | some (a, st1) =>
      match st1.rest with
      | ')' :: r =>
        match cap with
        | some i => some (.group i a, { st1 with rest := r })
        | none => some (a, { st1 with rest := r })
      | _ => none
end

/-- Parse a whole pattern of the fragment: the tree and the names of its
capture groups. `none` means that the pattern is not in the fragment, whether
Go compiles it (counted or non-greedy repetition, flags, POSIX and Unicode
classes, other escapes) or not. -/
def parse (p : String) : Option (Node × List String) :=
  match parseAlt (3 * p.data.length + 4) ⟨p.data, []⟩ with
  | some (n, st) => if st.rest = [] then some (n, st.names) else none
  | none => none

/-- Matcher state: characters consumed, characters left, and the spans
recorded for capture groups (most recent first). -/
structure MState where
  pos : Nat
  rest : List Char
  caps : List (Nat × Nat × Nat)
deriving Repr, DecidableEq

/-- Result of a bounded search. -/
inductive Res where
  | exhausted
  | fail
  | ok (st : MState)
deriving Repr, DecidableEq

/-- Membership of a character in a bracket expression. -/
def inClass (neg : Bool) (rs : List (Char × Char)) (c : Char) : Bool :=
  (rs.any fun r => r.1 ≤ c && c ≤ r.2) != neg

/-- Backtracking matcher in continuation-passing style. Alternatives are tried
left to right and repetitions are greedy, which yields the leftmost-first
match. Repetition follows the program Go compiles: `a+` is `a` followed by the
loop "another `a`, else leave", and `a*` is `(a+)?`. Go enters no program state
twice at one text position, so an iteration that consumes nothing ends the
repetition when it is the first one (the match goes on from there) and is
abandoned when it is a later one (the loop is left as it was entered). -/
def matchNode : Nat → Node → MState → (MState → Res) → Res
  | 0, _, _, _ => .exhausted
  | f + 1, n, st, k =>
    match n with
    | .empty => k st
    | .lit c =>
      match st.rest with
      | d :: r => if d = c then k ⟨st.pos + 1, r, st.caps⟩ else .fail
      | [] => .fail
    | .any =>
      match st.rest with
      | d :: r => if d = '\n' then .fail else k ⟨st.pos + 1, r, st.caps⟩
      | [] => .fail
    | .cls neg rs =>
      match st.rest with
      | d :: r => if inClass neg rs d then k ⟨st.pos + 1, r, st.caps⟩ else .fail
      | [] => .fail
    | .bol => if st.pos = 0 then k st else .fail
    | .eol => if st.rest = [] then k st else .fail
    | .cat a b => matchNode f a st fun st1 => matchNode f b st1 k
    | .alt a b =>
      match matchNode f a st k with
      | .fail => matchNode f b st k
      | r => r
    | .star a =>
      match matchNode f (.plus a) st k with
      | .fail => k st
      | r => r
    | .plus a =>
      matchNode f a st fun st1 =>
        if st1.pos = st.pos then k st1 else matchNode f (.loop a) st1 k
    | .loop a =>
      match matchNode f a st fun st1 =>
          if st1.pos = st.pos then .fail else matchNode f (.loop a) st1 k with
      | .fail => k st
      | r => r
    | .opt a =>
      match matchNode f a st k with
      | .fail => k st
      | r => r
    | .group i a => matchNode f a st fun st1 => k { st1 with caps := (i, st.pos, st1.pos) :: st1.caps }

/-- Number of nodes of a tree. -/
def Node.size : Node → Nat
  | .cat a b => a.size + b.size + 1
  | .alt a b => a.size + b.size + 1
  | .star a => a.size + 2
  | .plus a => a.size + 1
  | .loop a => a.size + 1
  | .opt a => a.size + 1
  | .group _ a => a.size + 1
  | _ => 1

/-- Search budget for a tree on a text of `len` characters. -/
def budget (n : Node) (len : Nat) : Nat :=
  2 * (n.size + 1) * (len + 1) + 2

/-- Try a match starting at each of the positions `pos`, `pos + 1`, ... of the
text, leftmost first. The whole match is recorded as group 0. -/
def searchFrom (n : Node) (fuel : Nat) : Nat → List Char → Res
  | pos, [] =>
    matchNode fuel n ⟨pos, [], []⟩ fun st => .ok { st with caps := (0, pos, st.pos) :: st.caps }
  | pos, c :: cs =>
    match matchNode fuel n ⟨pos, c :: cs, []⟩
        fun st => .ok { st with caps := (0, pos, st.pos) :: st.caps } with
    | .fail => searchFrom n fuel (pos + 1) cs
    | r => r

/-- Unanchored search in a text. -/
def search (n : Node) (text : String) : Res :=
  searchFrom n (budget n text.data.length) 0 text.data

/-- Does the tree match the whole of the text, from its first to its last
character? -/
def matchWhole (n : Node) (text : String) : Res :=
  matchNode (budget n text.data.length) n ⟨0, text.data, []⟩ fun st =>
    if st.rest = [] then .ok st else .fail

/-- The text of group `i` (the empty string when the group did not take
part). -/
def capText (text : List Char) (caps : List (Nat × Nat × Nat)) (i : Nat) : String :=
  match caps.find? fun c => c.1 == i with
  | some (_, b, e) => ⟨(text.drop b).take (e - b)⟩
  | none => ""

/-- The submatch slice for a tree with `ncap` groups, or `none` when there is
no match. -/
def submatch (n : Node) (ncap : Nat) (text : String) : Option (List String) :=
  match search n text with
  | .ok st => some ((List.range (ncap + 1)).map (capText text.data st.caps))
  | _ => none

/-- Names by group number, entry 0 being the whole match. -/
def subexpNames (names : List String) : List String :=
  (List.range (names.length + 1)).map fun i => ("" :: names).getD i ""

end regexp

/-- Model of Go `regexp.MustCompile` on the fragment, see `regexp.parse`.
`none` means that the pattern is outside the fragment, not that Go panics. -/
def MustCompile (p : String) : Option Regexp :=
  match regexp.parse p with
  | some (n, names) =>
    some {
      SubexpNames := regexp.subexpNames names
      FindStringSubmatch := regexp.submatch n names.length
      length_eq := by
        intro s m h
        unfold regexp.submatch at h
        split at h
        · cases h
          simp [regexp.subexpNames]
        · cases h }
  | none => none

/-- What a call of `regexp.MustCompile` gives: the compiled expression or a
panic. `unmodelled` is the answer of a model of the compiler on a pattern it
does not cover; Go's compiler never gives it. -/
inductive Compiled where
  | ok (re : Regexp)
  | panic
  | unmodelled

/-- Does the pattern `p`, taken on its own, match the whole of `s`? -/
def matchesWhole (p s : String) : Option regexp.Res :=
  (regexp.parse p).map fun t => regexp.matchWhole t.1 s


/-! ## Go `net/url` and `net/http` -/

/-- Go `url.Userinfo`. -/
structure Userinfo where
  username : String
  password : String
  passwordSet : Bool
deriving DecidableEq, Repr

/-- Go `url.URL`. -/
structure URL where
  Scheme : String
  Opaque : String
  User : Option Userinfo
  Host : String
  Path : String
  RawPath : String
  ForceQuery : Bool
  RawQuery : String
  Fragment : String
  RawFragment : String
deriving DecidableEq, Repr

/-- Functions of the Go standard library that the router calls and whose
result it only passes on: `regexp.MustCompile`, the `%q` verb of `fmt`
(`strconv.Quote`) and the percent-escaping helpers behind
`(*url.URL).String`. -/
structure Stdlib where
  MustCompile : String → Compiled
  Quote : String → String
  EscapedPath : URL → String
  EscapedFragment : URL → String
  escapeHost : String → String
  userinfoString : Userinfo → String

/-- The standard library on text that needs no escaping (ASCII letters,
digits, `.`, `-`, `/`) and on patterns of the fragment: `%q` adds the
surrounding double quotes, the URL escapers return their argument, and the
compiler is the model `MustCompile`, `unmodelled` outside the fragment. -/
def plainStdlib : Stdlib where
  MustCompile := fun p =>
    match MustCompile p with
    | some re => .ok re
    | none => .unmodelled
  Quote := fun s => "\"" ++ s ++ "\""
  EscapedPath := fun u => u.Path
  EscapedFragment := fun u => u.Fragment
  escapeHost := fun h => h
  userinfoString := fun u => if u.passwordSet then u.username ++ ":" ++ u.password else u.username

/-- Go `(*url.URL).String`: `scheme:opaque?query#fragment` or
`scheme://userinfo@host/path?query#fragment`, each part only when present. -/
def URL.String (lib : Stdlib) (u : URL) : String :=
  let buf := if u.Scheme ≠ "" then u.Scheme ++ ":" else ""
  let buf :=
    if u.Opaque ≠ "" then buf ++ u.Opaque
    else
      let buf :=
        if u.Scheme ≠ "" ∨ u.Host ≠ "" ∨ u.User.isSome then
          let buf := if u.Host ≠ "" ∨ u.Path ≠ "" ∨ u.User.isSome then buf ++ "//" else buf
          let buf :=
            match u.User with
            | some ui => buf ++ lib.userinfoString ui ++ "@"
            | none => buf
          if u.Host ≠ "" then buf ++ lib.escapeHost u.Host else buf
        else buf
      let path := lib.EscapedPath u
      let buf := if path ≠ "" ∧ path.data.head? ≠ some '/' ∧ u.Host ≠ "" then buf ++ "/" else buf
      let buf :=
        if buf = "" ∧ (path.data.takeWhile fun c => c ≠ '/').contains ':' then buf ++ "./"
        else buf
      buf ++ path
  let buf := if u.ForceQuery ∨ u.RawQuery ≠ "" then buf ++ "?" ++ u.RawQuery else buf
  if u.Fragment ≠ "" then buf ++ "#" ++ lib.EscapedFragment u else buf

/-- Go `tls.ConnectionState`; the router only tests `req.TLS` against nil. -/
structure ConnectionState where
  Version : Nat
  ServerName : String
deriving DecidableEq, Repr

/-- Go `http.Request`, the fields the router and its exchange read. `Header`
maps a canonical header name to its values in the order received. -/
structure Request where
  Method : String
  URL : URL
  Header : String → List String
  Body : List Nat
  Host : String
  TLS : Option ConnectionState

/-- One operation on an `http.ResponseWriter`. `Redirect` stands for a call of
the exchange's `Redirect` method. -/
inductive WriterOp where
  | SetHeader (key value : String)
  | WriteHeader (statusCode : Nat)
  | Write (data : String)
  | Redirect (url : String) (isPerm : Bool)
deriving DecidableEq, Repr

/-- An `http.ResponseWriter`: the operations performed on it, oldest first. -/
abbrev ResponseWriter := List WriterOp

/-- Go `http.StatusForbidden`. -/
def StatusForbidden : Nat := 403

/-- Go `http.StatusNotFound`. -/
def StatusNotFound : Nat := 404

/-- Go `http.NotFound(w, req)`, that is `http.Error(w, "404 page not found", 404)`. -/
def NotFound (w : ResponseWriter) : ResponseWriter :=
  w ++ [.SetHeader "Content-Type" "text/plain; charset=utf-8",
        .SetHeader "X-Content-Type-Options" "nosniff",
        .WriteHeader StatusNotFound,
        .Write "404 page not found\n"]

/-! ## Package `exchange` -/

/-- The `exchange.Exchange` built by the router. `Fields` is the
`map[string]string` of captures. -/
structure Exchange where
  Request : Request
  ResponseWriter : ResponseWriter
  Fields : String → Option String
  CappedBody : List Nat
  URL : URL

/-- Modelled from the spec: `Exchange.HeaderValueLast` of package `exchange`,
which is not among the sources. Section 4.1 and 6 describe it as the last
value of the named header; a header that is absent gives the empty string. -/
def Exchange.HeaderValueLast (ex : Exchange) (name : String) : String :=
  (ex.Request.Header name).getLastD ""

/-- Modelled from the spec: `Exchange.Redirect` of package `exchange`, which is
not among the sources. Section 4.1 step 6 describes it as issuing a redirect to
the given URL, permanent when the flag is set; the call is recorded on the
response writer. -/
def Exchange.Redirect (_ex : Exchange) (w : List WriterOp) (url : String) (isPerm : Bool) :
    List WriterOp :=
  w ++ [.Redirect url isPerm]

/-! ## Package `mux` -/

/-- The Go `type HandlerFn func(ex *exchange.Exchange)`: the handler may change the
exchange it points to and the world around it. -/
abbrev HandlerFn (σ : Type) := Exchange → σ → Exchange × σ

/-- The Go `type route struct`. -/
structure route (σ : Type) where
  Pattern : Regexp
  Fn : HandlerFn σ

/-- The Go `type Mux struct`; a nil `BeforeHandler` is `none`. -/
structure Mux (σ : Type) where
  PathPrefix : String
  BeforeHandler : Option (HandlerFn σ)
  Routes : List (route σ)

/-- What `HandleFunc` leaves: the router with the route appended, or the panic
of `MustCompile`; `unmodelled` when the compiler is a model that does not
cover the pattern. -/
inductive Registered (σ : Type) where
  | ok (mux : Mux σ)
  | panic
  | unmodelled

/-- The method `func (mux *Mux) HandleFunc`: append a route whose pattern is
compiled from `"^" + pattern + "$"`. -/
def Mux.HandleFunc {σ : Type} (lib : Stdlib) (mux : Mux σ) (pattern : String)
    (fn : HandlerFn σ) : Registered σ :=
  match lib.MustCompile ("^" ++ pattern ++ "$") with
  | .ok re => .ok { mux with Routes := mux.Routes ++ [{ Pattern := re, Fn := fn }] }
  | .panic => .panic
  | .unmodelled => .unmodelled

/-- The function `func contains(haystack []string, needle string) bool`. -/
def contains (haystack : List String) (needle : String) : Bool :=
  match haystack with
  | [] => false
  | item :: rest => if item = needle then true else contains rest needle

/-- A step taken by the router, as recorded in `Outcome.trace`; the callback
steps carry the exchange as it was when the callback was entered. -/
inductive Step where
  | Forbidden
  | NotFound
  | Redirect (url : String) (isPerm : Bool)
  | BeforeHandler (ex : Exchange)
  | Handler (index : Nat) (ex : Exchange)

/-- The kind of a step, without the exchange. -/
inductive Kind where
  | Forbidden
  | NotFound
  | Redirect
  | BeforeHandler
  | Handler (index : Nat)
deriving DecidableEq, Repr

/-- The kind of a step. -/
def Step.kind : Step → Kind
  | .Forbidden => .Forbidden
  | .NotFound => .NotFound
  | .Redirect _ _ => .Redirect
  | .BeforeHandler _ => .BeforeHandler
  | .Handler i _ => .Handler i

/-- What `ServeHTTP` leaves behind: the response writer, the world, and the
steps taken. -/
structure Outcome (σ : Type) where
  w : ResponseWriter
  state : σ
  trace : List Step

/-- The kinds of the steps taken, in order. -/
def Outcome.kinds {σ : Type} (o : Outcome σ) : List Kind :=
  o.trace.map Step.kind

/-- The exchange as the router handed it to the first callback it invoked (the
`BeforeHandler` when one is set, else the route handler), if it invoked one. -/
def Outcome.firstExchange {σ : Type} (o : Outcome σ) : Option Exchange :=
  match o.trace with
  | .BeforeHandler ex :: _ => some ex
  | .Handler _ ex :: _ => some ex
  | _ => none

/-- The exchange literal of `ServeHTTP` (lines 56-73): the URL is copied field
by field with the mount prefix trimmed from the path, the body is capped at
10000 bytes and `Fields` is a fresh map. -/
def newExchange {σ : Type} (mux : Mux σ) (w : ResponseWriter) (req : Request) : Exchange where
  Request := req
  ResponseWriter := w
  Fields := fun _ => none
  CappedBody := req.Body.take 10000
  URL := {
    Scheme := req.URL.Scheme
    Opaque := req.URL.Opaque
    User := req.URL.User
    Host := req.URL.Host
    Path := TrimPrefix req.URL.Path mux.PathPrefix
    RawPath := req.URL.RawPath
    ForceQuery := req.URL.ForceQuery
    RawQuery := req.URL.RawQuery
    Fragment := req.URL.Fragment
    RawFragment := req.URL.RawFragment }

/-- Scheme resolution (lines 75-84). -/
def resolveScheme (req : Request) (ex : Exchange) : Exchange :=
  if ex.URL.Scheme = "" then
    let forwardedProto := ex.HeaderValueLast "X-Forwarded-Proto"
    if forwardedProto ≠ "" then { ex with URL := { ex.URL with Scheme := forwardedProto } }
    else if req.TLS.isNone then { ex with URL := { ex.URL with Scheme := "http" } }
    else { ex with URL := { ex.URL with Scheme := "https" } }
  else ex

/-- Host resolution (lines 86-92). -/
def resolveHost (req : Request) (ex : Exchange) : Exchange :=
  if ex.URL.Host = "" then
    if req.Host ≠ "" then { ex with URL := { ex.URL with Host := req.Host } }
    else
      let forwardedHost := ex.HeaderValueLast "X-Forwarded-Host"
      if forwardedHost ≠ "" then { ex with URL := { ex.URL with Host := forwardedHost } }
      else ex
  else ex

/-- The exchange as it stands after line 92. -/
def makeExchange {σ : Type} (mux : Mux σ) (w : ResponseWriter) (req : Request) : Exchange :=
  resolveHost req (resolveScheme req (newExchange mux w req))

/-- The capture loop (lines 102-107): for each index `i` and name of
`SubexpNames`, a non-empty name is set to `match[i]`. -/
def setFields (m : List String) :
    List String → Nat → (String → Option String) → String → Option String
  | [], _, fields => fields
  | name :: rest, i, fields =>
    setFields m rest (i + 1)
      (if name ≠ "" then fun k => if k = name then some (m.getD i "") else fields k
       else fields)

/-- The calls of lines 109-113 for the matched route of index `i`: the
`BeforeHandler` when it is not nil, then the route's handler on the same
exchange pointer. -/
def callHandlers {σ : Type} (before : Option (HandlerFn σ)) (r : route σ) (i : Nat)
    (ex1 : Exchange) (s : σ) : Outcome σ :=
  match before with
  | some b =>
    ⟨(r.Fn (b ex1 s).1 (b ex1 s).2).1.ResponseWriter, (r.Fn (b ex1 s).1 (b ex1 s).2).2,
      [.BeforeHandler ex1, .Handler i (b ex1 s).1]⟩
  | none => ⟨(r.Fn ex1 s).1.ResponseWriter, (r.Fn ex1 s).2, [.Handler i ex1]⟩

/-- The route loop (lines 99-116) and the fall-through to 404 (lines 118-120);
`i` is the index in `mux.Routes` of the first route of the list. -/
def serveRoutes {σ : Type} (before : Option (HandlerFn σ)) (ex : Exchange) :
    Nat → List (route σ) → σ → Outcome σ
  | _, [], s => ⟨NotFound ex.ResponseWriter, s, [.NotFound]⟩
  | i, r :: rest, s =>
    match r.Pattern.FindStringSubmatch ex.URL.Path with
    | some m =>
      callHandlers before r i
        { ex with Fields := setFields m r.Pattern.SubexpNames 0 ex.Fields } s
    | none => serveRoutes before ex (i + 1) rest s

/-- The allow-list test (lines 38-41): the variable is set and the host is not
one of its comma-separated entries. -/
def hostRejected (getenv : String → String) (req : Request) : Bool :=
  getenv "HTTPBUN_ALLOW_HOSTS" ≠ "" && !contains (Split (getenv "HTTPBUN_ALLOW_HOSTS") ',') req.Host

/-- The redirect test (line 94). -/
def wantsRedirect (getenv : String → String) (ex : Exchange) : Bool :=
  ex.HeaderValueLast "X-Forwarded-Proto" = "http" && getenv "HTTPBUN_FORCE_HTTPS" = "1"
    && ex.URL.Path = "/"

/-- The method `func (mux Mux) ServeHTTP(w http.ResponseWriter, req *http.Request)`.
`getenv` is `os.Getenv` and `s` the world the handlers act on. -/
def Mux.ServeHTTP {σ : Type} (lib : Stdlib) (getenv : String → String) (mux : Mux σ)
    (w : ResponseWriter) (req : Request) (s : σ) : Outcome σ :=
  if hostRejected getenv req then
    ⟨w ++ [.WriteHeader StatusForbidden,
           .Write (toString StatusForbidden ++ " host " ++ lib.Quote req.Host ++ " not allowed")],
      s, [.Forbidden]⟩
  else if !HasPrefix req.URL.Path mux.PathPrefix then
    ⟨NotFound w, s, [.NotFound]⟩
  else
    let ex := makeExchange mux w req
    if wantsRedirect getenv ex then
      ⟨ex.Redirect w ("https://" ++ req.Host ++ req.URL.String lib) true, s,
        [.Redirect ("https://" ++ req.Host ++ req.URL.String lib) true]⟩
    else serveRoutes mux.BeforeHandler ex 0 mux.Routes s

/-! ## Concrete routers and requests -/

/-- An environment in which no variable is set. -/
def noEnv : String → String :=
  fun _ => ""

/-- An environment in which only the given variable is set. -/
def oneEnv (name value : String) : String → String :=
  fun k => if k = name then value else ""

/-- A request without headers. -/
def noHeader : String → List String :=
  fun _ => []

/-- A request with one header, of the given values. -/
def oneHeader (name : String) (values : List String) : String → List String :=
  fun k => if k = name then values else []

/-- A `GET` request in origin form, as the server reads
`GET <path> HTTP/1.1` with a `Host` header. -/
def originRequest (path host : String) (header : String → List String) : Request where
  Method := "GET"
  URL := ⟨"", "", none, "", path, "", false, "", "", ""⟩
  Header := header
  Body := []
  Host := host
  TLS := none

/-- A `GET` request in absolute form, as the server reads
`GET http://<host><path> HTTP/1.1` and as `httptest.NewRequest` builds it in
`ExecRequest` of the test suite: the URL carries scheme and host. -/
def absoluteRequest (host path : String) (header : String → List String) : Request where
  Method := "GET"
  URL := ⟨"http", "", none, host, path, "", false, "", "", ""⟩
  Header := header
  Body := []
  Host := host
  TLS := none

/-- A handler that appends its tag to a log; the log is the world. -/
def logHandler (tag : String) : HandlerFn (List String) :=
  fun ex log => (ex, log ++ [tag])

/-- A router without routes. -/
def emptyMux (pathPrefix : String) (before : Option (HandlerFn (List String))) :
    Mux (List String) :=
  ⟨pathPrefix, before, []⟩

/-- Register the patterns in order with `HandleFunc`, each with a handler that
logs the pattern's position. -/
def register : Mux (List String) → List String → Option (Mux (List String))
  | mux, [] => some mux
  | mux, p :: rest =>
    match mux.HandleFunc plainStdlib p (logHandler ("route " ++ toString mux.Routes.length)) with
    | .ok mux' => register mux' rest
    | _ => none

/-- The router with the given patterns, or the router without routes when one
of them is outside the fragment. -/
def muxOf (pathPrefix : String) (before : Option (HandlerFn (List String)))
    (patterns : List String) : Mux (List String) :=
  (register (emptyMux pathPrefix before) patterns).getD (emptyMux pathPrefix before)

/-- A `BeforeHandler` that sets the field `extra` on the exchange. -/
def tagHandler : HandlerFn (List String) :=
  fun ex log =>
    ({ ex with Fields := fun k => if k = "extra" then some "1" else ex.Fields k },
      log ++ ["before"])

/-- A `BeforeHandler` that rewrites the path of the exchange. -/
def rewriteHandler : HandlerFn (List String) :=
  fun ex log => ({ ex with URL := { ex.URL with Path := "/elsewhere" } }, log)

/-- A handler that logs the value it finds in `Fields` under `k`. -/
def fieldLogger (k : String) : HandlerFn (List String) :=
  fun ex log => (ex, log ++ [(ex.Fields k).getD "(unset)"])

/-- A handler that logs the path it finds in the exchange. -/
def pathLogger : HandlerFn (List String) :=
  fun ex log => (ex, log ++ [ex.URL.Path])

/-- Register the patterns in order with `HandleFunc`, each with its handler. -/
def registerWith :
    Mux (List String) → List (String × HandlerFn (List String)) → Option (Mux (List String))
  | mux, [] => some mux
  | mux, p :: rest =>
    match mux.HandleFunc plainStdlib p.1 p.2 with
    | .ok mux' => registerWith mux' rest
    | _ => none

/-- The router with the given patterns and handlers, or the router without
routes when one of the patterns is outside the fragment. -/
def muxWith (pathPrefix : String) (before : Option (HandlerFn (List String)))
    (routes : List (String × HandlerFn (List String))) : Mux (List String) :=
  (registerWith (emptyMux pathPrefix before) routes).getD (emptyMux pathPrefix before)

/-! ## Lemmas on the string helpers -/

theorem HasPrefix_iff (s pre : String) : HasPrefix s pre = true ↔ pre.data <+: s.data := by
  unfold HasPrefix
  exact List.isPrefixOf_iff_prefix

theorem TrimPrefix_append (s pre : String) (h : HasPrefix s pre = true) :
    pre ++ TrimPrefix s pre = s := by
  obtain ⟨t, ht⟩ := (HasPrefix_iff s pre).1 h
  apply String.ext
  simp [TrimPrefix, h, ← ht]

theorem TrimPrefix_empty (s : String) : TrimPrefix s "" = s := by
  simp [TrimPrefix, HasPrefix]

theorem contains_iff (l : List String) (x : String) : contains l x = true ↔ x ∈ l := by
  induction l with
  | nil => simp [contains]
  | cons a l ih =>
    unfold contains
    by_cases h : a = x
    · simp [h]
    · simp [h, ih, Ne.symm h]

theorem hostRejected_iff (getenv : String → String) (req : Request) :
    hostRejected getenv req = true ↔
      getenv "HTTPBUN_ALLOW_HOSTS" ≠ "" ∧ req.Host ∉ Split (getenv "HTTPBUN_ALLOW_HOSTS") ',' := by
  simp [hostRejected, ← contains_iff]

/-! ## Lemmas on the route loop -/

theorem serveRoutes_none {σ : Type} (before : Option (HandlerFn σ)) (ex : Exchange) :
    ∀ (routes : List (route σ)) (i : Nat) (s : σ),
      (∀ r ∈ routes, r.Pattern.FindStringSubmatch ex.URL.Path = none) →
      serveRoutes before ex i routes s = ⟨NotFound ex.ResponseWriter, s, [.NotFound]⟩ := by
  intro routes
  induction routes with
  | nil => intro i s _; rfl
  | cons r rest ih =>
    intro i s h
    have hr := h r (List.mem_cons_self _ _)
    simp only [serveRoutes, hr]
    exact ih (i + 1) s fun r' hr' => h r' (List.mem_cons_of_mem _ hr')

theorem serveRoutes_first {σ : Type} (before : Option (HandlerFn σ)) (ex : Exchange) :
    ∀ (routes : List (route σ)) (i0 : Nat) (s : σ) (j : Nat) (r : route σ) (m : List String),
      routes[j]? = some r →
      r.Pattern.FindStringSubmatch ex.URL.Path = some m →
      (∀ (j' : Nat) (r' : route σ), j' < j → routes[j']? = some r' →
        r'.Pattern.FindStringSubmatch ex.URL.Path = none) →
      serveRoutes before ex i0 routes s =
        callHandlers before r (i0 + j)
          { ex with Fields := setFields m r.Pattern.SubexpNames 0 ex.Fields } s := by
  intro routes
  induction routes with
  | nil => intro i0 s j r m hj; simp at hj
  | cons r0 rest ih =>
    intro i0 s j r m hj hm hfirst
    cases j with
    | zero =>
      simp at hj
      subst hj
      simp [serveRoutes, hm]
    | succ j =>
      have h0 := hfirst 0 r0 (Nat.succ_pos j) (by simp)
      simp only [serveRoutes, h0]
      rw [ih (i0 + 1) s j r m (by simpa using hj) hm]
      · congr 1; omega
      · intro j' r' hlt hj'
        exact hfirst (j' + 1) r' (by omega) (by simpa using hj')

theorem exists_first_match {σ : Type} (path : String) :
    ∀ (routes : List (route σ)),
      (∃ r ∈ routes, (r.Pattern.FindStringSubmatch path).isSome = true) →
      ∃ (j : Nat) (r : route σ) (m : List String), routes[j]? = some r ∧
        r.Pattern.FindStringSubmatch path = some m ∧
        ∀ (j' : Nat) (r' : route σ), j' < j → routes[j']? = some r' →
          r'.Pattern.FindStringSubmatch path = none := by
  intro routes
  induction routes with
  | nil => rintro ⟨r, hr, _⟩; simp at hr
  | cons r0 rest ih =>
    rintro ⟨r, hr, hm⟩
    cases h0 : r0.Pattern.FindStringSubmatch path with
    | some m =>
      exact ⟨0, r0, m, by simp, h0, fun j' r' hlt _ => absurd hlt (Nat.not_lt_zero _)⟩
    | none =>
      have hrest : ∃ r ∈ rest, (r.Pattern.FindStringSubmatch path).isSome = true := by
        rcases List.mem_cons.1 hr with rfl | hr'
        · simp [h0] at hm
        · exact ⟨r, hr', hm⟩
      obtain ⟨j, r1, m, hj, hm1, hfirst⟩ := ih hrest
      refine ⟨j + 1, r1, m, by simpa using hj, hm1, ?_⟩
      intro j' r' hlt hj'
      cases j' with
      | zero => simp at hj'; subst hj'; exact h0
      | succ j' => exact hfirst j' r' (by omega) (by simpa using hj')

/-- With the allow-list and prefix tests passed and no redirect, `ServeHTTP` is
the route loop on the exchange built from the request. -/
theorem ServeHTTP_routes {σ : Type} (lib : Stdlib) (getenv : String → String) (mux : Mux σ)
    (w : ResponseWriter) (req : Request) (s : σ)
    (hallow : hostRejected getenv req = false)
    (hpre : HasPrefix req.URL.Path mux.PathPrefix = true)
    (hredir : wantsRedirect getenv (makeExchange mux w req) = false) :
    mux.ServeHTTP lib getenv w req s =
      serveRoutes mux.BeforeHandler (makeExchange mux w req) 0 mux.Routes s := by
  simp [Mux.ServeHTTP, hallow, hpre, hredir]

theorem resolveScheme_rest (req : Request) (ex : Exchange) :
    (resolveScheme req ex).URL.Path = ex.URL.Path ∧ (resolveScheme req ex).URL.Host = ex.URL.Host ∧
    (resolveScheme req ex).Fields = ex.Fields ∧ (resolveScheme req ex).Request = ex.Request ∧
    (resolveScheme req ex).ResponseWriter = ex.ResponseWriter := by
  simp only [resolveScheme]
  split_ifs <;> simp

theorem resolveHost_rest (req : Request) (ex : Exchange) :
    (resolveHost req ex).URL.Path = ex.URL.Path ∧ (resolveHost req ex).URL.Scheme = ex.URL.Scheme ∧
    (resolveHost req ex).Fields = ex.Fields ∧ (resolveHost req ex).Request = ex.Request ∧
    (resolveHost req ex).ResponseWriter = ex.ResponseWriter := by
  simp only [resolveHost]
  split_ifs <;> simp

theorem makeExchange_path {σ : Type} (mux : Mux σ) (w : ResponseWriter) (req : Request) :
    (makeExchange mux w req).URL.Path = TrimPrefix req.URL.Path mux.PathPrefix := by
  unfold makeExchange
  rw [(resolveHost_rest _ _).1, (resolveScheme_rest _ _).1]
  rfl

theorem makeExchange_fields {σ : Type} (mux : Mux σ) (w : ResponseWriter) (req : Request) :
    (makeExchange mux w req).Fields = fun _ => none := by
  unfold makeExchange
  rw [(resolveHost_rest _ _).2.2.1, (resolveScheme_rest _ _).2.2.1]
  rfl

theorem makeExchange_request {σ : Type} (mux : Mux σ) (w : ResponseWriter) (req : Request) :
    (makeExchange mux w req).Request = req := by
  unfold makeExchange
  rw [(resolveHost_rest _ _).2.2.2.1, (resolveScheme_rest _ _).2.2.2.1]
  rfl

theorem makeExchange_writer {σ : Type} (mux : Mux σ) (w : ResponseWriter) (req : Request) :
    (makeExchange mux w req).ResponseWriter = w := by
  unfold makeExchange
  rw [(resolveHost_rest _ _).2.2.2.2, (resolveScheme_rest _ _).2.2.2.2]
  rfl

theorem callHandlers_firstExchange {σ : Type} (before : Option (HandlerFn σ)) (r : route σ)
    (i : Nat) (ex1 : Exchange) (s : σ) :
    (callHandlers before r i ex1 s).firstExchange = some ex1 := by
  cases before <;> rfl

theorem callHandlers_kinds {σ : Type} (before : Option (HandlerFn σ)) (r : route σ)
    (i : Nat) (ex1 : Exchange) (s : σ) :
    (callHandlers before r i ex1 s).kinds =
      (if before.isSome then [Kind.BeforeHandler] else []) ++ [Kind.Handler i] := by
  cases before <;> rfl

/-- Every way `ServeHTTP` can end, by the tests of its four stages. -/
theorem ServeHTTP_cases {σ : Type} (lib : Stdlib) (getenv : String → String) (mux : Mux σ)
    (w : ResponseWriter) (req : Request) (s : σ) :
    (hostRejected getenv req = true ∧
      mux.ServeHTTP lib getenv w req s =
        ⟨w ++ [.WriteHeader 403, .Write ("403 host " ++ lib.Quote req.Host ++ " not allowed")],
          s, [.Forbidden]⟩) ∨
    (hostRejected getenv req = false ∧ HasPrefix req.URL.Path mux.PathPrefix = false ∧
      mux.ServeHTTP lib getenv w req s = ⟨NotFound w, s, [.NotFound]⟩) ∨
    (hostRejected getenv req = false ∧ HasPrefix req.URL.Path mux.PathPrefix = true ∧
      wantsRedirect getenv (makeExchange mux w req) = true ∧
      mux.ServeHTTP lib getenv w req s =
        ⟨w ++ [.Redirect ("https://" ++ req.Host ++ req.URL.String lib) true], s,
          [.Redirect ("https://" ++ req.Host ++ req.URL.String lib) true]⟩) ∨
    (hostRejected getenv req = false ∧ HasPrefix req.URL.Path mux.PathPrefix = true ∧
      wantsRedirect getenv (makeExchange mux w req) = false ∧
      (∀ r ∈ mux.Routes,
        r.Pattern.FindStringSubmatch (TrimPrefix req.URL.Path mux.PathPrefix) = none) ∧
      mux.ServeHTTP lib getenv w req s = ⟨NotFound w, s, [.NotFound]⟩) ∨
    (hostRejected getenv req = false ∧ HasPrefix req.URL.Path mux.PathPrefix = true ∧
      wantsRedirect getenv (makeExchange mux w req) = false ∧
      ∃ (i : Nat) (r : route σ) (m : List String),
        mux.Routes[i]? = some r ∧
        r.Pattern.FindStringSubmatch (TrimPrefix req.URL.Path mux.PathPrefix) = some m ∧
        (∀ (j : Nat) (r' : route σ), j < i → mux.Routes[j]? = some r' →
          r'.Pattern.FindStringSubmatch (TrimPrefix req.URL.Path mux.PathPrefix) = none) ∧
        mux.ServeHTTP lib getenv w req s =
          callHandlers mux.BeforeHandler r i
            { makeExchange mux w req with
              Fields := setFields m r.Pattern.SubexpNames 0 fun _ => none } s) := by
  cases hallow : hostRejected getenv req with
  | true =>
    left
    refine ⟨rfl, ?_⟩
    simp [Mux.ServeHTTP, hallow, StatusForbidden]
    rfl
  | false =>
    right
    cases hpre : HasPrefix req.URL.Path mux.PathPrefix with
    | false =>
      left
      refine ⟨rfl, rfl, ?_⟩
      simp [Mux.ServeHTTP, hallow, hpre]
    | true =>
      right
      cases hredir : wantsRedirect getenv (makeExchange mux w req) with
      | true =>
        left
        refine ⟨rfl, rfl, rfl, ?_⟩
        simp [Mux.ServeHTTP, hallow, hpre, hredir, Exchange.Redirect]
      | false =>
        right
        rw [ServeHTTP_routes lib getenv mux w req s hallow hpre hredir]
        by_cases hex : ∃ r ∈ mux.Routes,
            (r.Pattern.FindStringSubmatch (makeExchange mux w req).URL.Path).isSome = true
        · right
          obtain ⟨i, r, m, hi, hm, hfirst⟩ := exists_first_match _ mux.Routes hex
          refine ⟨rfl, rfl, rfl, i, r, m, hi, ?_, ?_, ?_⟩
          · rw [← makeExchange_path mux w req]; exact hm
          · intro j r' hj hr'
            rw [← makeExchange_path mux w req]; exact hfirst j r' hj hr'
          · rw [serveRoutes_first mux.BeforeHandler _ mux.Routes 0 s i r m hi hm hfirst,
              makeExchange_fields]
            simp
        · left
          have hnone : ∀ r ∈ mux.Routes,
              r.Pattern.FindStringSubmatch (makeExchange mux w req).URL.Path = none := by
            intro r hr
            cases h : r.Pattern.FindStringSubmatch (makeExchange mux w req).URL.Path with
            | none => rfl
            | some m => exact absurd ⟨r, hr, by simp [h]⟩ hex
          refine ⟨rfl, rfl, rfl, ?_, ?_⟩
          · intro r hr
            rw [← makeExchange_path mux w req]; exact hnone r hr
          · rw [serveRoutes_none mux.BeforeHandler _ mux.Routes 0 s hnone, makeExchange_writer]

/-- The exchange handed to the first callback is the one built from the
request, with the captures of the first matching route as its fields. -/
theorem ServeHTTP_firstExchange {σ : Type} (lib : Stdlib) (getenv : String → String)
    (mux : Mux σ) (w : ResponseWriter) (req : Request) (s : σ) (ex : Exchange)
    (h : (mux.ServeHTTP lib getenv w req s).firstExchange = some ex) :
    HasPrefix req.URL.Path mux.PathPrefix = true ∧
    ∃ (i : Nat) (r : route σ) (m : List String),
      mux.Routes[i]? = some r ∧
      r.Pattern.FindStringSubmatch (TrimPrefix req.URL.Path mux.PathPrefix) = some m ∧
      (∀ (j : Nat) (r' : route σ), j < i → mux.Routes[j]? = some r' →
        r'.Pattern.FindStringSubmatch (TrimPrefix req.URL.Path mux.PathPrefix) = none) ∧
      ex = { makeExchange mux w req with
              Fields := setFields m r.Pattern.SubexpNames 0 fun _ => none } ∧
      mux.ServeHTTP lib getenv w req s = callHandlers mux.BeforeHandler r i ex s := by
  rcases ServeHTTP_cases lib getenv mux w req s with
    ⟨_, e⟩ | ⟨_, _, e⟩ | ⟨_, _, _, e⟩ | ⟨_, _, _, _, e⟩ | ⟨_, hpre, _, i, r, m, hi, hm, hfirst, e⟩
  · rw [e] at h; simp [Outcome.firstExchange] at h
  · rw [e] at h; simp [Outcome.firstExchange] at h
  · rw [e] at h; simp [Outcome.firstExchange] at h
  · rw [e] at h; simp [Outcome.firstExchange] at h
  · rw [e, callHandlers_firstExchange] at h
    have hex : _ = ex := Option.some.inj h
    refine ⟨hpre, i, r, m, hi, hm, hfirst, hex.symm, ?_⟩
    rw [e, hex]

/-! ## Lemmas on the capture loop -/

theorem setFields_of_not_mem (m : List String) :
    ∀ (names : List String) (i : Nat) (fields : String → Option String) (k : String),
      k ∉ names → setFields m names i fields k = fields k := by
  intro names
  induction names with
  | nil => intro i fields k _; rfl
  | cons n rest ih =>
    intro i fields k hk
    have hkn : k ≠ n := fun h => hk (h ▸ List.mem_cons_self _ _)
    have hkr : k ∉ rest := fun h => hk (List.mem_cons_of_mem _ h)
    simp only [setFields]
    rw [ih _ _ _ hkr]
    split <;> simp [hkn]

theorem setFields_isSome (m : List String) :
    ∀ (names : List String) (i : Nat) (fields : String → Option String) (k : String),
      (setFields m names i fields k).isSome = true ↔
        (k ≠ "" ∧ k ∈ names) ∨ (fields k).isSome = true := by
  intro names
  induction names with
  | nil => intro i fields k; simp [setFields]
  | cons n rest ih =>
    intro i fields k
    simp only [setFields]
    rw [ih]
    by_cases hn : n = ""
    · subst hn
      simp only [ne_eq, not_true_eq_false, if_false, List.mem_cons]
      constructor
      · rintro (⟨h1, h2⟩ | h)
        · exact Or.inl ⟨h1, Or.inr h2⟩
        · exact Or.inr h
      · rintro (⟨h1, h2 | h2⟩ | h)
        · exact absurd h2 h1
        · exact Or.inl ⟨h1, h2⟩
        · exact Or.inr h
    · simp only [ne_eq, hn, not_false_eq_true, if_true, List.mem_cons]
      by_cases hk : k = n
      · subst hk
        simp [hn]
      · simp [hk]

theorem setFields_last (m : List String) :
    ∀ (names : List String) (i : Nat) (fields : String → Option String) (j : Nat)
      (name : String),
      names[j]? = some name → name ≠ "" →
      (∀ j', j < j' → names[j']? ≠ some name) →
      setFields m names i fields name = some (m.getD (i + j) "") := by
  intro names
  induction names with
  | nil => intro i fields j name hj; simp at hj
  | cons n rest ih =>
    intro i fields j name hj hne hlast
    cases j with
    | zero =>
      simp at hj
      subst hj
      have hnot : n ∉ rest := by
        intro hmem
        obtain ⟨j', hj'⟩ := List.getElem?_of_mem hmem
        exact hlast (j' + 1) (Nat.succ_pos _) (by simpa using hj')
      simp only [setFields]
      rw [setFields_of_not_mem m rest _ _ n hnot]
      simp [hne]
    | succ j =>
      simp only [setFields]
      rw [ih (i + 1) _ j name (by simpa using hj) hne
        (fun j' hlt => by simpa using hlast (j' + 1) (by omega))]
      congr 2; omega

/-! ## Lemmas on the redirect -/

theorem wantsRedirect_iff {σ : Type} (getenv : String → String) (mux : Mux σ)
    (w : ResponseWriter) (req : Request) :
    wantsRedirect getenv (makeExchange mux w req) = true ↔
      (req.Header "X-Forwarded-Proto").getLastD "" = "http" ∧
      getenv "HTTPBUN_FORCE_HTTPS" = "1" ∧
      TrimPrefix req.URL.Path mux.PathPrefix = "/" := by
  simp [wantsRedirect, Exchange.HeaderValueLast, makeExchange_request, makeExchange_path,
    and_assoc]

/-- The first half of C9: past the allow-list and prefix tests, the router's
only step is a permanent redirect to `"https://" + req.Host + req.URL.String()`
exactly when the last `X-Forwarded-Proto` value is `http`,
`HTTPBUN_FORCE_HTTPS` is `1` and the trimmed path is `/`. -/
theorem ServeHTTP_redirect_iff {σ : Type} (lib : Stdlib) (getenv : String → String)
    (mux : Mux σ) (w : ResponseWriter) (req : Request) (s : σ)
    (hallow : hostRejected getenv req = false)
    (hpre : HasPrefix req.URL.Path mux.PathPrefix = true) :
    (Kind.Redirect ∈ (mux.ServeHTTP lib getenv w req s).kinds ↔
      (req.Header "X-Forwarded-Proto").getLastD "" = "http" ∧
      getenv "HTTPBUN_FORCE_HTTPS" = "1" ∧
      TrimPrefix req.URL.Path mux.PathPrefix = "/") ∧
    (Kind.Redirect ∈ (mux.ServeHTTP lib getenv w req s).kinds →
      mux.ServeHTTP lib getenv w req s =
        ⟨w ++ [.Redirect ("https://" ++ req.Host ++ req.URL.String lib) true], s,
          [.Redirect ("https://" ++ req.Host ++ req.URL.String lib) true]⟩) := by
  rw [← wantsRedirect_iff getenv mux w req]
  rcases ServeHTTP_cases lib getenv mux w req s with
    ⟨h, _⟩ | ⟨_, h, _⟩ | ⟨_, _, hr, e⟩ | ⟨_, _, hr, _, e⟩ | ⟨_, _, hr, i, r, m, _, _, _, e⟩
  · rw [hallow] at h; cases h
  · rw [hpre] at h; cases h
  · exact ⟨⟨fun _ => hr, fun _ => by rw [e]; simp [Outcome.kinds, Step.kind]⟩, fun _ => e⟩
  · have hno : Kind.Redirect ∉ (mux.ServeHTTP lib getenv w req s).kinds := by
      rw [e]; simp [Outcome.kinds, Step.kind]
    exact ⟨⟨fun h => absurd h hno, fun h => by rw [hr] at h; cases h⟩, fun h => absurd h hno⟩
  · have hno : Kind.Redirect ∉ (mux.ServeHTTP lib getenv w req s).kinds := by
      rw [e, callHandlers_kinds]; split <;> simp
    exact ⟨⟨fun h => absurd h hno, fun h => by rw [hr] at h; cases h⟩, fun h => absurd h hno⟩

/-- For a URL in origin form (path and query only, the path starting with a
slash) `String` is the escaped path followed by the query, so that the
redirect target is `https://`, the Host, the path and the query. -/
theorem URL_String_origin_form (lib : Stdlib) (u : URL)
    (hs : u.Scheme = "") (ho : u.Opaque = "") (hh : u.Host = "") (hu : u.User = none)
    (hf : u.Fragment = "") (hp : (lib.EscapedPath u).data.head? = some '/') :
    u.String lib =
      lib.EscapedPath u ++ (if u.ForceQuery ∨ u.RawQuery ≠ "" then "?" ++ u.RawQuery else "") := by
  have htw : (lib.EscapedPath u).data.takeWhile (fun c => decide (c ≠ '/')) = [] := by
    cases hd : (lib.EscapedPath u).data with
    | nil => rfl
    | cons c cs =>
      rw [hd] at hp
      simp at hp
      subst hp
      simp [List.takeWhile]
  simp only [URL.String, hs, ho, hh, hu, hf, htw]
  simp
  split <;> simp [String.append_assoc]

/-! ## The outcome of `ServeHTTP` in terms of the handlers -/

theorem hostRejected_eq_false_iff (getenv : String → String) (req : Request) :
    hostRejected getenv req = false ↔
      getenv "HTTPBUN_ALLOW_HOSTS" = "" ∨ req.Host ∈ Split (getenv "HTTPBUN_ALLOW_HOSTS") ',' := by
  rw [← Bool.not_eq_true, hostRejected_iff]
  by_cases h1 : getenv "HTTPBUN_ALLOW_HOSTS" = ""
  · simp [h1]
  · simp [h1]

theorem wantsRedirect_eq_false_iff {σ : Type} (getenv : String → String) (mux : Mux σ)
    (w : ResponseWriter) (req : Request) :
    wantsRedirect getenv (makeExchange mux w req) = false ↔
      ¬ ((req.Header "X-Forwarded-Proto").getLastD "" = "http" ∧
        getenv "HTTPBUN_FORCE_HTTPS" = "1" ∧
        TrimPrefix req.URL.Path mux.PathPrefix = "/") := by
  rw [← Bool.not_eq_true, wantsRedirect_iff]

/-- The general form of the resolved host: the request URL's host, else
`req.Host`, else the last `X-Forwarded-Host` value. -/
theorem makeExchange_host {σ : Type} (mux : Mux σ) (w : ResponseWriter) (req : Request) :
    (makeExchange mux w req).URL.Host =
      (if req.URL.Host ≠ "" then req.URL.Host
       else if req.Host ≠ "" then req.Host
       else (req.Header "X-Forwarded-Host").getLastD "") := by
  unfold makeExchange
  have hreq : (resolveScheme req (newExchange mux w req)).Request = req :=
    (resolveScheme_rest _ _).2.2.2.1
  have hhost : (resolveScheme req (newExchange mux w req)).URL.Host = req.URL.Host :=
    (resolveScheme_rest _ _).2.1
  simp only [resolveHost, Exchange.HeaderValueLast, hreq, hhost]
  split_ifs <;> simp_all

/-- A dispatched request, in terms of the handlers themselves: the outcome is
what the route handler of the first matching route returns, applied to what the
`BeforeHandler` returns when one is set, and to the exchange built from the
request with the captures as fields otherwise. -/
theorem ServeHTTP_dispatch {σ : Type} (lib : Stdlib) (getenv : String → String) (mux : Mux σ)
    (w : ResponseWriter) (req : Request) (s : σ)
    (hallow : getenv "HTTPBUN_ALLOW_HOSTS" = "" ∨
      req.Host ∈ Split (getenv "HTTPBUN_ALLOW_HOSTS") ',')
    (hpre : HasPrefix req.URL.Path mux.PathPrefix = true)
    (hredir : ¬ ((req.Header "X-Forwarded-Proto").getLastD "" = "http" ∧
      getenv "HTTPBUN_FORCE_HTTPS" = "1" ∧ TrimPrefix req.URL.Path mux.PathPrefix = "/"))
    (hmatch : ∃ r ∈ mux.Routes,
      (r.Pattern.FindStringSubmatch (TrimPrefix req.URL.Path mux.PathPrefix)).isSome = true) :
    ∃ (i : Nat) (r : route σ) (m : List String),
      mux.Routes[i]? = some r ∧
      r.Pattern.FindStringSubmatch (TrimPrefix req.URL.Path mux.PathPrefix) = some m ∧
      (∀ (j : Nat) (r' : route σ), j < i → mux.Routes[j]? = some r' →
        r'.Pattern.FindStringSubmatch (TrimPrefix req.URL.Path mux.PathPrefix) = none) ∧
      (∀ b, mux.BeforeHandler = some b →
        mux.ServeHTTP lib getenv w req s =
          ⟨(r.Fn
              (b { makeExchange mux w req with
                    Fields := setFields m r.Pattern.SubexpNames 0 fun _ => none } s).1
              (b { makeExchange mux w req with
                    Fields := setFields m r.Pattern.SubexpNames 0 fun _ => none } s).2).1.ResponseWriter,
            (r.Fn
              (b { makeExchange mux w req with
                    Fields := setFields m r.Pattern.SubexpNames 0 fun _ => none } s).1
              (b { makeExchange mux w req with
                    Fields := setFields m r.Pattern.SubexpNames 0 fun _ => none } s).2).2,
            [.BeforeHandler { makeExchange mux w req with
                Fields := setFields m r.Pattern.SubexpNames 0 fun _ => none },
             .Handler i
              (b { makeExchange mux w req with
                    Fields := setFields m r.Pattern.SubexpNames 0 fun _ => none } s).1]⟩) ∧
      (mux.BeforeHandler = none →
        mux.ServeHTTP lib getenv w req s =
          ⟨(r.Fn { makeExchange mux w req with
                    Fields := setFields m r.Pattern.SubexpNames 0 fun _ => none } s).1.ResponseWriter,
            (r.Fn { makeExchange mux w req with
                    Fields := setFields m r.Pattern.SubexpNames 0 fun _ => none } s).2,
            [.Handler i { makeExchange mux w req with
                Fields := setFields m r.Pattern.SubexpNames 0 fun _ => none }]⟩) := by
  have hallow' := (hostRejected_eq_false_iff getenv req).2 hallow
  have hredir' := (wantsRedirect_eq_false_iff getenv mux w req).2 hredir
  rcases ServeHTTP_cases lib getenv mux w req s with
    ⟨h, _⟩ | ⟨_, h, _⟩ | ⟨_, _, h, _⟩ | ⟨_, _, _, h, _⟩ | ⟨_, _, _, i, r, m, hi, hm, hfirst, e⟩
  · rw [hallow'] at h; cases h
  · rw [hpre] at h; cases h
  · rw [hredir'] at h; cases h
  · obtain ⟨r, hr, hm⟩ := hmatch
    rw [h r hr] at hm; cases hm
  · refine ⟨i, r, m, hi, hm, hfirst, ?_, ?_⟩
    · intro b hb
      rw [e, hb]; rfl
    · intro hb
      rw [e, hb]; rfl

/-- A request that misses the prefix, or passes it without redirect and
matches no route, gets the reply of `http.NotFound` and nothing else. -/
theorem ServeHTTP_miss {σ : Type} (lib : Stdlib) (getenv : String → String) (mux : Mux σ)
    (w : ResponseWriter) (req : Request) (s : σ)
    (hallow : getenv "HTTPBUN_ALLOW_HOSTS" = "" ∨
      req.Host ∈ Split (getenv "HTTPBUN_ALLOW_HOSTS") ',')
    (hnoredir : ¬ (HasPrefix req.URL.Path mux.PathPrefix = true ∧
      (req.Header "X-Forwarded-Proto").getLastD "" = "http" ∧
      getenv "HTTPBUN_FORCE_HTTPS" = "1" ∧ TrimPrefix req.URL.Path mux.PathPrefix = "/"))
    (hmiss : HasPrefix req.URL.Path mux.PathPrefix = false ∨
      ∀ r ∈ mux.Routes,
        r.Pattern.FindStringSubmatch (TrimPrefix req.URL.Path mux.PathPrefix) = none) :
    mux.ServeHTTP lib getenv w req s =
      ⟨w ++ [.SetHeader "Content-Type" "text/plain; charset=utf-8",
             .SetHeader "X-Content-Type-Options" "nosniff",
             .WriteHeader 404,
             .Write "404 page not found\n"], s, [.NotFound]⟩ := by
  have hallow' := (hostRejected_eq_false_iff getenv req).2 hallow
  rcases ServeHTTP_cases lib getenv mux w req s with
    ⟨h, _⟩ | ⟨_, _, e⟩ | ⟨_, hp, h, _⟩ | ⟨_, _, _, _, e⟩ | ⟨_, hp, _, i, r, m, hi, hm, _, _⟩
  · rw [hallow'] at h; cases h
  · exact e
  · exact absurd ⟨hp, (wantsRedirect_iff getenv mux w req).1 h⟩ hnoredir
  · exact e
  · rcases hmiss with h | h
    · rw [hp] at h; cases h
    · rw [h r (List.getElem?_mem hi)] at hm; cases hm

/-! ## The claims -/

/-- C1. First match wins in registration order. For a request that passes the
allow-list, prefix and redirect tests and whose trimmed path is matched by at
least one registered pattern, there is a lowest index `i` in `Routes` whose
pattern matches, and what `ServeHTTP` leaves is the result of that route's
handler: applied to the result of the `BeforeHandler` when one is set (the
`BeforeHandler` first, the handler second, once each), applied directly
otherwise; no other route's handler enters the result. `HandleFunc` appends
the route at the end of `Routes`, for every pattern the compiler accepts, so
the index is the order of registration. -/
theorem C1_first_match_wins {σ : Type} (lib : Stdlib) (getenv : String → String) (mux : Mux σ)
    (w : ResponseWriter) (req : Request) (s : σ)
    (hallow : getenv "HTTPBUN_ALLOW_HOSTS" = "" ∨
      req.Host ∈ Split (getenv "HTTPBUN_ALLOW_HOSTS") ',')
    (hpre : HasPrefix req.URL.Path mux.PathPrefix = true)
    (hredir : ¬ ((req.Header "X-Forwarded-Proto").getLastD "" = "http" ∧
      getenv "HTTPBUN_FORCE_HTTPS" = "1" ∧ TrimPrefix req.URL.Path mux.PathPrefix = "/"))
    (hmatch : ∃ r ∈ mux.Routes,
      (r.Pattern.FindStringSubmatch (TrimPrefix req.URL.Path mux.PathPrefix)).isSome = true) :
    (∃ (i : Nat) (r : route σ) (m : List String) (ex1 : Exchange),
      mux.Routes[i]? = some r ∧
      r.Pattern.FindStringSubmatch (TrimPrefix req.URL.Path mux.PathPrefix) = some m ∧
      (∀ (j : Nat) (r' : route σ), j < i → mux.Routes[j]? = some r' →
        r'.Pattern.FindStringSubmatch (TrimPrefix req.URL.Path mux.PathPrefix) = none) ∧
      ex1 = { makeExchange mux w req with
              Fields := setFields m r.Pattern.SubexpNames 0 fun _ => none } ∧
      (∀ b, mux.BeforeHandler = some b →
        mux.ServeHTTP lib getenv w req s =
          ⟨(r.Fn (b ex1 s).1 (b ex1 s).2).1.ResponseWriter, (r.Fn (b ex1 s).1 (b ex1 s).2).2,
            [.BeforeHandler ex1, .Handler i (b ex1 s).1]⟩) ∧
      (mux.BeforeHandler = none →
        mux.ServeHTTP lib getenv w req s =
          ⟨(r.Fn ex1 s).1.ResponseWriter, (r.Fn ex1 s).2, [.Handler i ex1]⟩)) ∧
    ∀ (pattern : String) (fn : HandlerFn σ) (re : Regexp),
      lib.MustCompile ("^" ++ pattern ++ "$") = .ok re →
      mux.HandleFunc lib pattern fn =
        .ok { mux with Routes := mux.Routes ++ [{ Pattern := re, Fn := fn }] } := by
  constructor
  · obtain ⟨i, r, m, hi, hm, hfirst, hsome, hnone⟩ :=
      ServeHTTP_dispatch lib getenv mux w req s hallow hpre hredir hmatch
    exact ⟨i, r, m, _, hi, hm, hfirst, rfl, hsome, hnone⟩
  · intro pattern fn re h
    simp only [Mux.HandleFunc, h]

/-- C1 at a router mounted on `/bun` with a `BeforeHandler` and the patterns
`/x`, `/a.*`, `/ab`: the request for `/bun/ab` matches the routes 1 and 2, and
the log reads `before`, `route 1`. -/
theorem C1_witness :
    (muxOf "/bun" (some (logHandler "before")) ["/x", "/a.*", "/ab"]).Routes.length = 3 ∧
    ((muxOf "/bun" (some (logHandler "before")) ["/x", "/a.*", "/ab"]).Routes.map fun r =>
      (r.Pattern.FindStringSubmatch "/ab").isSome) = [false, true, true] ∧
    (∃ (r : route (List String)) (ex1 : Exchange),
      (muxOf "/bun" (some (logHandler "before")) ["/x", "/a.*", "/ab"]).Routes[1]? = some r ∧
      (muxOf "/bun" (some (logHandler "before")) ["/x", "/a.*", "/ab"]).ServeHTTP
          plainStdlib noEnv [] (originRequest "/bun/ab" "h" noHeader) [] =
        ⟨(r.Fn (logHandler "before" ex1 []).1 (logHandler "before" ex1 []).2).1.ResponseWriter,
          (r.Fn (logHandler "before" ex1 []).1 (logHandler "before" ex1 []).2).2,
          [.BeforeHandler ex1, .Handler 1 (logHandler "before" ex1 []).1]⟩) ∧
    ((muxOf "/bun" (some (logHandler "before")) ["/x", "/a.*", "/ab"]).ServeHTTP
        plainStdlib noEnv [] (originRequest "/bun/ab" "h" noHeader) []).state =
      ["before", "route 1"] := by
  obtain ⟨⟨i, r, m, ex1, hi, hm, hfirst, _, hsome, _⟩, _⟩ :=
    C1_first_match_wins plainStdlib noEnv
      (muxOf "/bun" (some (logHandler "before")) ["/x", "/a.*", "/ab"]) []
      (originRequest "/bun/ab" "h" noHeader) [] (by decide!) (by decide!) (by decide!)
      (by decide!)
  have h0 : ∀ r0 : route (List String),
      (muxOf "/bun" (some (logHandler "before")) ["/x", "/a.*", "/ab"]).Routes[0]? = some r0 →
      r0.Pattern.FindStringSubmatch
        (TrimPrefix (originRequest "/bun/ab" "h" noHeader).URL.Path
          (muxOf "/bun" (some (logHandler "before")) ["/x", "/a.*", "/ab"]).PathPrefix) =
        none := by
    decide!
  have h1 : ∀ r1 : route (List String),
      (muxOf "/bun" (some (logHandler "before")) ["/x", "/a.*", "/ab"]).Routes[1]? = some r1 →
      r1.Pattern.FindStringSubmatch
        (TrimPrefix (originRequest "/bun/ab" "h" noHeader).URL.Path
          (muxOf "/bun" (some (logHandler "before")) ["/x", "/a.*", "/ab"]).PathPrefix) ≠
        none := by
    decide!
  have hi1 : i = 1 := by
    rcases Nat.lt_trichotomy i 1 with hlt | heq | hgt
    · have hi0 : i = 0 := by omega
      subst hi0
      rw [h0 r hi] at hm; cases hm
    · exact heq
    · obtain ⟨r1, hr1⟩ : ∃ r1,
          (muxOf "/bun" (some (logHandler "before")) ["/x", "/a.*", "/ab"]).Routes[1]? =
            some r1 := Option.isSome_iff_exists.1 (by decide!)
      exact absurd (hfirst 1 r1 hgt hr1) (h1 r1 hr1)
  subst hi1
  exact ⟨by decide!, by decide!, ⟨r, ex1, hi, hsome _ rfl⟩, by decide!⟩

/-- C4. 404 exactly on a prefix or routing miss. For a request that passes the
allow-list and is not answered by the redirect, `ServeHTTP` leaves the reply
of `http.NotFound` on the writer (status 404, body `404 page not found`), the
world untouched and no callback run, if and only if the raw path does not
start with the mount prefix or no registered pattern matches the trimmed path;
in every other case the outcome is the result of exactly one route handler,
that of the first matching route, applied after the `BeforeHandler` when one
is set. -/
theorem C4_not_found_iff {σ : Type} (lib : Stdlib) (getenv : String → String) (mux : Mux σ)
    (w : ResponseWriter) (req : Request) (s : σ)
    (hallow : getenv "HTTPBUN_ALLOW_HOSTS" = "" ∨
      req.Host ∈ Split (getenv "HTTPBUN_ALLOW_HOSTS") ',')
    (hnoredir : ¬ (HasPrefix req.URL.Path mux.PathPrefix = true ∧
      (req.Header "X-Forwarded-Proto").getLastD "" = "http" ∧
      getenv "HTTPBUN_FORCE_HTTPS" = "1" ∧ TrimPrefix req.URL.Path mux.PathPrefix = "/")) :
    (mux.ServeHTTP lib getenv w req s =
        ⟨w ++ [.SetHeader "Content-Type" "text/plain; charset=utf-8",
               .SetHeader "X-Content-Type-Options" "nosniff",
               .WriteHeader 404,
               .Write "404 page not found\n"], s, [.NotFound]⟩ ↔
      (HasPrefix req.URL.Path mux.PathPrefix = false ∨
        ∀ r ∈ mux.Routes,
          r.Pattern.FindStringSubmatch (TrimPrefix req.URL.Path mux.PathPrefix) = none)) ∧
    (¬ (HasPrefix req.URL.Path mux.PathPrefix = false ∨
        ∀ r ∈ mux.Routes,
          r.Pattern.FindStringSubmatch (TrimPrefix req.URL.Path mux.PathPrefix) = none) →
      ∃ (i : Nat) (r : route σ) (m : List String) (ex1 : Exchange),
        mux.Routes[i]? = some r ∧
        r.Pattern.FindStringSubmatch (TrimPrefix req.URL.Path mux.PathPrefix) = some m ∧
        (∀ (j : Nat) (r' : route σ), j < i → mux.Routes[j]? = some r' →
          r'.Pattern.FindStringSubmatch (TrimPrefix req.URL.Path mux.PathPrefix) = none) ∧
        (∀ b, mux.BeforeHandler = some b →
          mux.ServeHTTP lib getenv w req s =
            ⟨(r.Fn (b ex1 s).1 (b ex1 s).2).1.ResponseWriter, (r.Fn (b ex1 s).1 (b ex1 s).2).2,
              [.BeforeHandler ex1, .Handler i (b ex1 s).1]⟩) ∧
        (mux.BeforeHandler = none →
          mux.ServeHTTP lib getenv w req s =
            ⟨(r.Fn ex1 s).1.ResponseWriter, (r.Fn ex1 s).2, [.Handler i ex1]⟩)) := by
  have hdisp : ¬ (HasPrefix req.URL.Path mux.PathPrefix = false ∨
        ∀ r ∈ mux.Routes,
          r.Pattern.FindStringSubmatch (TrimPrefix req.URL.Path mux.PathPrefix) = none) →
      ∃ (i : Nat) (r : route σ) (m : List String) (ex1 : Exchange),
        mux.Routes[i]? = some r ∧
        r.Pattern.FindStringSubmatch (TrimPrefix req.URL.Path mux.PathPrefix) = some m ∧
        (∀ (j : Nat) (r' : route σ), j < i → mux.Routes[j]? = some r' →
          r'.Pattern.FindStringSubmatch (TrimPrefix req.URL.Path mux.PathPrefix) = none) ∧
        (∀ b, mux.BeforeHandler = some b →
          mux.ServeHTTP lib getenv w req s =
            ⟨(r.Fn (b ex1 s).1 (b ex1 s).2).1.ResponseWriter, (r.Fn (b ex1 s).1 (b ex1 s).2).2,
              [.BeforeHandler ex1, .Handler i (b ex1 s).1]⟩) ∧
        (mux.BeforeHandler = none →
          mux.ServeHTTP lib getenv w req s =
            ⟨(r.Fn ex1 s).1.ResponseWriter, (r.Fn ex1 s).2, [.Handler i ex1]⟩) := by
    intro hn
    have hpre : HasPrefix req.URL.Path mux.PathPrefix = true := by
      cases hp : HasPrefix req.URL.Path mux.PathPrefix with
      | true => rfl
      | false => exact absurd (Or.inl hp) hn
    have hmatch : ∃ r ∈ mux.Routes,
        (r.Pattern.FindStringSubmatch (TrimPrefix req.URL.Path mux.PathPrefix)).isSome = true := by
      by_contra hno
      apply hn
      right
      intro r hr
      cases hm : r.Pattern.FindStringSubmatch (TrimPrefix req.URL.Path mux.PathPrefix) with
      | none => rfl
      | some m => exact absurd ⟨r, hr, by simp [hm]⟩ hno
    obtain ⟨i, r, m, hi, hm, hfirst, hsome, hnone⟩ :=
      ServeHTTP_dispatch lib getenv mux w req s hallow hpre
        (fun h => hnoredir ⟨hpre, h⟩) hmatch
    exact ⟨i, r, m, _, hi, hm, hfirst, hsome, hnone⟩
  refine ⟨⟨fun h => ?_, fun h => ServeHTTP_miss lib getenv mux w req s hallow hnoredir h⟩, hdisp⟩
  by_contra hn
  obtain ⟨i, r, m, ex1, _, _, _, hsome, hnone⟩ := hdisp hn
  cases hb : mux.BeforeHandler with
  | none =>
    rw [hnone hb] at h
    simp at h
  | some b =>
    rw [hsome b hb] at h
    simp at h

/-- C4 at a router mounted on `/bun`: the path `/elsewhere` misses the prefix
and gets the 404 reply with the log left empty; the path `/bun/x` is handled
by the one route. -/
theorem C4_witness :
    (muxOf "/bun" (some (logHandler "before")) ["/.*"]).ServeHTTP plainStdlib noEnv []
        (originRequest "/elsewhere" "h" noHeader) [] =
      ⟨[.SetHeader "Content-Type" "text/plain; charset=utf-8",
        .SetHeader "X-Content-Type-Options" "nosniff",
        .WriteHeader 404,
        .Write "404 page not found\n"], [], [.NotFound]⟩ ∧
    ((muxOf "/bun" (some (logHandler "before")) ["/.*"]).ServeHTTP plainStdlib noEnv []
        (originRequest "/bun/x" "h" noHeader) []).state = ["before", "route 0"] :=
  ⟨(C4_not_found_iff plainStdlib noEnv (muxOf "/bun" (some (logHandler "before")) ["/.*"])
      [] (originRequest "/elsewhere" "h" noHeader) [] (by decide!) (by decide!)).1.2
      (Or.inl (by decide!)),
    by decide!⟩

/-- C5. Host allow-list rejects before routing. When `HTTPBUN_ALLOW_HOSTS` is
set and the request's Host is not one of its comma-separated entries,
`ServeHTTP` writes status 403 and the body `403 host <%q of Host> not allowed`
and invokes no callback; when the variable is empty or the Host is an entry,
the router takes no 403 step. -/
theorem C5_host_allow_list {σ : Type} (lib : Stdlib) (getenv : String → String) (mux : Mux σ)
    (w : ResponseWriter) (req : Request) (s : σ) :
    (getenv "HTTPBUN_ALLOW_HOSTS" ≠ "" ∧
        req.Host ∉ Split (getenv "HTTPBUN_ALLOW_HOSTS") ',' →
      mux.ServeHTTP lib getenv w req s =
        ⟨w ++ [.WriteHeader 403, .Write ("403 host " ++ lib.Quote req.Host ++ " not allowed")],
          s, [.Forbidden]⟩) ∧
    (getenv "HTTPBUN_ALLOW_HOSTS" = "" ∨
        req.Host ∈ Split (getenv "HTTPBUN_ALLOW_HOSTS") ',' →
      Kind.Forbidden ∉ (mux.ServeHTTP lib getenv w req s).kinds) := by
  constructor
  · intro h
    have hrej := (hostRejected_iff getenv req).2 h
    rcases ServeHTTP_cases lib getenv mux w req s with
      ⟨_, e⟩ | ⟨h', _⟩ | ⟨h', _⟩ | ⟨h', _⟩ | ⟨h', _⟩
    · exact e
    all_goals (rw [hrej] at h'; cases h')
  · intro h
    have hrej : hostRejected getenv req = false := by
      cases hr : hostRejected getenv req with
      | false => rfl
      | true =>
        obtain ⟨h1, h2⟩ := (hostRejected_iff getenv req).1 hr
        rcases h with h | h
        · exact absurd h h1
        · exact absurd h h2
    rcases ServeHTTP_cases lib getenv mux w req s with
      ⟨h', _⟩ | ⟨_, _, e⟩ | ⟨_, _, _, e⟩ | ⟨_, _, _, _, e⟩ | ⟨_, _, _, i, r, m, _, _, _, e⟩
    · rw [hrej] at h'; cases h'
    · rw [e]; simp [Outcome.kinds, Step.kind]
    · rw [e]; simp [Outcome.kinds, Step.kind]
    · rw [e]; simp [Outcome.kinds, Step.kind]
    · rw [e, callHandlers_kinds]; split <;> simp

/-- C5 at the allow-list `a.example.com` and the Host `b.example.com`. -/
theorem C5_witness :
    oneEnv "HTTPBUN_ALLOW_HOSTS" "a.example.com" "HTTPBUN_ALLOW_HOSTS" ≠ "" ∧
    "b.example.com" ∉ Split "a.example.com" ',' ∧
    (muxOf "" (some (logHandler "before")) ["/.*"]).ServeHTTP plainStdlib
        (oneEnv "HTTPBUN_ALLOW_HOSTS" "a.example.com") []
        (originRequest "/get" "b.example.com" noHeader) [] =
      ⟨[.WriteHeader 403, .Write "403 host \"b.example.com\" not allowed"], [], [.Forbidden]⟩ :=
  ⟨by decide!, by decide!,
    (C5_host_allow_list plainStdlib (oneEnv "HTTPBUN_ALLOW_HOSTS" "a.example.com")
      (muxOf "" (some (logHandler "before")) ["/.*"]) []
      (originRequest "/get" "b.example.com" noHeader) []).1 ⟨by decide!, by decide!⟩⟩

/-- C7. Scheme resolution. The exchange built from a request carries the
request URL's scheme when that is non-empty; otherwise the last value of
`X-Forwarded-Proto` when that is non-empty; otherwise `http` without TLS state
and `https` with it. The same holds of the exchange handed to the first
callback. -/
theorem C7_scheme_resolution {σ : Type} (lib : Stdlib) (getenv : String → String) (mux : Mux σ)
    (w : ResponseWriter) (req : Request) (s : σ) :
    (makeExchange mux w req).URL.Scheme =
      (if req.URL.Scheme ≠ "" then req.URL.Scheme
       else if (req.Header "X-Forwarded-Proto").getLastD "" ≠ "" then
         (req.Header "X-Forwarded-Proto").getLastD ""
       else if req.TLS = none then "http" else "https") ∧
    ∀ ex, (mux.ServeHTTP lib getenv w req s).firstExchange = some ex →
      ex.URL.Scheme = (makeExchange mux w req).URL.Scheme := by
  constructor
  · unfold makeExchange
    rw [(resolveHost_rest _ _).2.1]
    simp only [resolveScheme, newExchange, Exchange.HeaderValueLast]
    split_ifs <;> simp_all
  · intro ex h
    obtain ⟨_, i, r, m, _, _, _, hex, _⟩ := ServeHTTP_firstExchange lib getenv mux w req s ex h
    rw [hex]

/-- C7 at a request without URL scheme and with the `X-Forwarded-Proto` values
`https`, `http` in that order: the scheme is the last one, `http`. -/
theorem C7_witness :
    (makeExchange (muxOf "" none ["/.*"]) []
      (originRequest "/get" "h" (oneHeader "X-Forwarded-Proto" ["https", "http"]))).URL.Scheme =
      "http" ∧
    ∀ ex, ((muxOf "" none ["/.*"]).ServeHTTP plainStdlib noEnv []
        (originRequest "/get" "h" (oneHeader "X-Forwarded-Proto" ["https", "http"]))
        []).firstExchange = some ex → ex.URL.Scheme = "http" :=
  have h := C7_scheme_resolution plainStdlib noEnv (muxOf "" none ["/.*"]) []
    (originRequest "/get" "h" (oneHeader "X-Forwarded-Proto" ["https", "http"])) []
  ⟨h.1.trans (by decide!), fun ex hex => (h.2 ex hex).trans (h.1.trans (by decide!))⟩

/-- C8. Host resolution. For a request as the transport delivers it (`net/http`
sets `req.Host` to the host of the request URL whenever the URL carries one),
the exchange's resolved host is `req.Host` whenever that is non-empty, and is
the last value of `X-Forwarded-Host` (the empty string when there is none)
when `req.Host` is empty, and only then does it differ from `req.Host`. The
same holds of the exchange handed to the first callback. -/
theorem C8_host_resolution {σ : Type} (lib : Stdlib) (getenv : String → String) (mux : Mux σ)
    (w : ResponseWriter) (req : Request) (s : σ)
    (htransport : req.URL.Host ≠ "" → req.Host = req.URL.Host) :
    (req.Host ≠ "" → (makeExchange mux w req).URL.Host = req.Host) ∧
    (req.Host = "" →
      (makeExchange mux w req).URL.Host = (req.Header "X-Forwarded-Host").getLastD "") ∧
    ((makeExchange mux w req).URL.Host ≠ req.Host → req.Host = "") ∧
    ∀ ex, (mux.ServeHTTP lib getenv w req s).firstExchange = some ex →
      ex.URL.Host = (makeExchange mux w req).URL.Host := by
  have h1 : req.Host ≠ "" → (makeExchange mux w req).URL.Host = req.Host := by
    intro hh
    rw [makeExchange_host]
    by_cases hu : req.URL.Host = ""
    · simp [hu, hh]
    · simp [hu, htransport hu]
  refine ⟨h1, ?_, ?_, ?_⟩
  · intro hh
    have hu : req.URL.Host = "" := by
      by_contra hu
      exact hu ((htransport hu).symm.trans hh)
    rw [makeExchange_host]
    simp [hu, hh]
  · intro hne
    by_contra hh
    exact hne (h1 hh)
  · intro ex h
    obtain ⟨_, i, r, m, _, _, _, hex, _⟩ := ServeHTTP_firstExchange lib getenv mux w req s ex h
    rw [hex]

/-- C8 at requests with two `X-Forwarded-Host` values: in absolute form the
host of the URL, which is the Host, is taken; in origin form without a Host
the last forwarded value is. -/
theorem C8_witness :
    (makeExchange (muxOf "" none ["/.*"]) []
      (absoluteRequest "h.example" "/get"
        (oneHeader "X-Forwarded-Host" ["a.example", "b.example"]))).URL.Host = "h.example" ∧
    (makeExchange (muxOf "" none ["/.*"]) []
      (originRequest "/get" "" (oneHeader "X-Forwarded-Host" ["a.example", "b.example"]))).URL.Host =
      "b.example" :=
  ⟨((C8_host_resolution plainStdlib noEnv (muxOf "" none ["/.*"]) []
      (absoluteRequest "h.example" "/get" (oneHeader "X-Forwarded-Host" ["a.example", "b.example"]))
      [] (by decide!)).1 (by decide!)).trans (by decide!),
   ((C8_host_resolution plainStdlib noEnv (muxOf "" none ["/.*"]) []
      (originRequest "/get" "" (oneHeader "X-Forwarded-Host" ["a.example", "b.example"]))
      [] (by decide!)).2.1 (by decide!)).trans (by decide!)⟩

/-- C10 as amended. Path normalization strips the mount prefix. When the raw
path starts with the mount prefix, the exchange's path is the raw path
without that leading prefix, removed once: prefix followed by exchange path is
the raw path, and with an empty prefix the path is unchanged. That path is
what every pattern is matched against, and the exchange carrying it is the
argument of the first callback: of the `BeforeHandler` when one is set, the
route handler then receiving what the `BeforeHandler` returns, and of the
route handler otherwise. -/
theorem C10_path_normalization {σ : Type} (lib : Stdlib) (getenv : String → String)
    (mux : Mux σ) (w : ResponseWriter) (req : Request) (s : σ)
    (hpre : HasPrefix req.URL.Path mux.PathPrefix = true) :
    mux.PathPrefix ++ (makeExchange mux w req).URL.Path = req.URL.Path ∧
    (mux.PathPrefix = "" → (makeExchange mux w req).URL.Path = req.URL.Path) ∧
    ((getenv "HTTPBUN_ALLOW_HOSTS" = "" ∨
        req.Host ∈ Split (getenv "HTTPBUN_ALLOW_HOSTS") ',') →
      ¬ ((req.Header "X-Forwarded-Proto").getLastD "" = "http" ∧
        getenv "HTTPBUN_FORCE_HTTPS" = "1" ∧
        (makeExchange mux w req).URL.Path = "/") →
      ((∀ r ∈ mux.Routes,
          r.Pattern.FindStringSubmatch (makeExchange mux w req).URL.Path = none) ∧
        mux.ServeHTTP lib getenv w req s =
          ⟨w ++ [.SetHeader "Content-Type" "text/plain; charset=utf-8",
                 .SetHeader "X-Content-Type-Options" "nosniff",
                 .WriteHeader 404,
                 .Write "404 page not found\n"], s, [.NotFound]⟩) ∨
      ∃ (i : Nat) (r : route σ) (m : List String) (ex1 : Exchange),
        mux.Routes[i]? = some r ∧
        r.Pattern.FindStringSubmatch ex1.URL.Path = some m ∧
        (∀ (j : Nat) (r' : route σ), j < i → mux.Routes[j]? = some r' →
          r'.Pattern.FindStringSubmatch ex1.URL.Path = none) ∧
        mux.PathPrefix ++ ex1.URL.Path = req.URL.Path ∧
        (∀ b, mux.BeforeHandler = some b →
          mux.ServeHTTP lib getenv w req s =
            ⟨(r.Fn (b ex1 s).1 (b ex1 s).2).1.ResponseWriter, (r.Fn (b ex1 s).1 (b ex1 s).2).2,
              [.BeforeHandler ex1, .Handler i (b ex1 s).1]⟩) ∧
        (mux.BeforeHandler = none →
          mux.ServeHTTP lib getenv w req s =
            ⟨(r.Fn ex1 s).1.ResponseWriter, (r.Fn ex1 s).2, [.Handler i ex1]⟩)) := by
  have hpath := makeExchange_path mux w req
  have happ : mux.PathPrefix ++ (makeExchange mux w req).URL.Path = req.URL.Path := by
    rw [hpath]; exact TrimPrefix_append _ _ hpre
  refine ⟨happ, ?_, ?_⟩
  · intro h0
    rw [hpath, h0, TrimPrefix_empty]
  · intro hallow hredir
    rw [hpath] at hredir
    by_cases hmatch : ∃ r ∈ mux.Routes,
        (r.Pattern.FindStringSubmatch (TrimPrefix req.URL.Path mux.PathPrefix)).isSome = true
    · right
      obtain ⟨i, r, m, hi, hm, hfirst, hsome, hnone⟩ :=
        ServeHTTP_dispatch lib getenv mux w req s hallow hpre hredir hmatch
      refine ⟨i, r, m, { makeExchange mux w req with
          Fields := setFields m r.Pattern.SubexpNames 0 fun _ => none }, hi, ?_, ?_, ?_,
        hsome, hnone⟩
      · show r.Pattern.FindStringSubmatch (makeExchange mux w req).URL.Path = some m
        rw [hpath]; exact hm
      · intro j r' hj hr'
        show r'.Pattern.FindStringSubmatch (makeExchange mux w req).URL.Path = none
        rw [hpath]; exact hfirst j r' hj hr'
      · exact happ
    · left
      have hnone : ∀ r ∈ mux.Routes,
          r.Pattern.FindStringSubmatch (TrimPrefix req.URL.Path mux.PathPrefix) = none := by
        intro r hr
        cases hm : r.Pattern.FindStringSubmatch (TrimPrefix req.URL.Path mux.PathPrefix) with
        | none => rfl
        | some m => exact absurd ⟨r, hr, by simp [hm]⟩ hmatch
      refine ⟨by rw [hpath]; exact hnone, ?_⟩
      exact ServeHTTP_miss lib getenv mux w req s hallow (fun h => hredir h.2) (Or.inr hnone)

/-- C10 as amended, at the mount prefix `/bun` and the raw path `/bun/bun/x`:
the prefix is removed once, the exchange path is `/bun/x`, and that is the
path the route handler logs. -/
theorem C10_witness :
    HasPrefix "/bun/bun/x" "/bun" = true ∧
    (makeExchange (muxWith "/bun" none [("/.*", pathLogger)]) []
      (originRequest "/bun/bun/x" "h" noHeader)).URL.Path = "/bun/x" ∧
    "/bun" ++ (makeExchange (muxWith "/bun" none [("/.*", pathLogger)]) []
      (originRequest "/bun/bun/x" "h" noHeader)).URL.Path = "/bun/bun/x" ∧
    ((muxWith "/bun" none [("/.*", pathLogger)]).ServeHTTP plainStdlib noEnv []
      (originRequest "/bun/bun/x" "h" noHeader) []).state = ["/bun/x"] :=
  ⟨by decide!, by decide!,
    (C10_path_normalization plainStdlib noEnv (muxWith "/bun" none [("/.*", pathLogger)]) []
      (originRequest "/bun/bun/x" "h" noHeader) [] (by decide!)).1,
    by decide!⟩

/-- C10 as stated fails for the route handler: with a `BeforeHandler` that
rewrites the path, the handler of the route matched on `/x` finds the path
`/elsewhere`, and `/bun` followed by that is not the raw path `/bun/x`. -/
theorem C10_counterexample :
    ((muxWith "/bun" (some rewriteHandler) [("/x", pathLogger)]).ServeHTTP plainStdlib noEnv []
      (originRequest "/bun/x" "h" noHeader) []).state = ["/elsewhere"] ∧
    ¬ (∀ p : String,
        ((muxWith "/bun" (some rewriteHandler) [("/x", pathLogger)]).ServeHTTP plainStdlib noEnv
          [] (originRequest "/bun/x" "h" noHeader) []).state = [p] →
        "/bun" ++ p = "/bun/x") := by
  refine ⟨by decide!, fun h => ?_⟩
  exact absurd (h "/elsewhere" (by decide!)) (by decide)

/-- C2 as amended. Named captures become fields. When a route is dispatched,
the first callback (the `BeforeHandler` when one is set, otherwise the route
handler) is applied to the exchange built from the request with a `Fields` map
whose keys are exactly the non-empty capture-group names of the matched route,
the first one that matches, each mapped to the submatch of the last group that
bears the name; so with distinct names every named group maps to its own
submatch. The route handler is applied to that exchange when no
`BeforeHandler` is set, and to the exchange the `BeforeHandler` returns
otherwise. -/
theorem C2_named_captures {σ : Type} (lib : Stdlib) (getenv : String → String) (mux : Mux σ)
    (w : ResponseWriter) (req : Request) (s : σ)
    (hallow : getenv "HTTPBUN_ALLOW_HOSTS" = "" ∨
      req.Host ∈ Split (getenv "HTTPBUN_ALLOW_HOSTS") ',')
    (hpre : HasPrefix req.URL.Path mux.PathPrefix = true)
    (hredir : ¬ ((req.Header "X-Forwarded-Proto").getLastD "" = "http" ∧
      getenv "HTTPBUN_FORCE_HTTPS" = "1" ∧ TrimPrefix req.URL.Path mux.PathPrefix = "/"))
    (hmatch : ∃ r ∈ mux.Routes,
      (r.Pattern.FindStringSubmatch (TrimPrefix req.URL.Path mux.PathPrefix)).isSome = true) :
    ∃ (i : Nat) (r : route σ) (m : List String) (fields : String → Option String),
      mux.Routes[i]? = some r ∧
      r.Pattern.FindStringSubmatch (TrimPrefix req.URL.Path mux.PathPrefix) = some m ∧
      (∀ (j : Nat) (r' : route σ), j < i → mux.Routes[j]? = some r' →
        r'.Pattern.FindStringSubmatch (TrimPrefix req.URL.Path mux.PathPrefix) = none) ∧
      (∀ k, (fields k).isSome = true ↔ k ≠ "" ∧ k ∈ r.Pattern.SubexpNames) ∧
      (∀ (j : Nat) (name : String), r.Pattern.SubexpNames[j]? = some name → name ≠ "" →
        (∀ j', j < j' → r.Pattern.SubexpNames[j']? ≠ some name) →
        fields name = m[j]?) ∧
      (∀ b, mux.BeforeHandler = some b →
        mux.ServeHTTP lib getenv w req s =
          ⟨(r.Fn (b { makeExchange mux w req with Fields := fields } s).1
              (b { makeExchange mux w req with Fields := fields } s).2).1.ResponseWriter,
            (r.Fn (b { makeExchange mux w req with Fields := fields } s).1
              (b { makeExchange mux w req with Fields := fields } s).2).2,
            [.BeforeHandler { makeExchange mux w req with Fields := fields },
             .Handler i (b { makeExchange mux w req with Fields := fields } s).1]⟩) ∧
      (mux.BeforeHandler = none →
        mux.ServeHTTP lib getenv w req s =
          ⟨(r.Fn { makeExchange mux w req with Fields := fields } s).1.ResponseWriter,
            (r.Fn { makeExchange mux w req with Fields := fields } s).2,
            [.Handler i { makeExchange mux w req with Fields := fields }]⟩) := by
  obtain ⟨i, r, m, hi, hm, hfirst, hsome, hnone⟩ :=
    ServeHTTP_dispatch lib getenv mux w req s hallow hpre hredir hmatch
  refine ⟨i, r, m, setFields m r.Pattern.SubexpNames 0 fun _ => none, hi, hm, hfirst, ?_, ?_,
    hsome, hnone⟩
  · intro k
    rw [setFields_isSome]
    simp
  · intro j name hj hne hlast
    rw [setFields_last m _ 0 _ j name hj hne hlast]
    have hlen := r.Pattern.length_eq _ _ hm
    have hjlt : j < m.length := by
      rw [hlen]
      by_contra hge
      rw [List.getElem?_eq_none (by omega)] at hj
      cases hj
    simp [List.getD, hjlt]

/-- C2 as amended, at the pattern `/status/(?P<codes>[\d,]+)` and the path
`/status/200,404`: the route handler reads `200,404` under `codes` and nothing
under another key. -/
theorem C2_witness :
    ((muxWith "" none [("/x", fieldLogger "codes"),
        ("/status/(?P<codes>[\\d,]+)", fieldLogger "codes")]).Routes.map fun r =>
      r.Pattern.SubexpNames) = [[""], ["", "codes"]] ∧
    (∃ (r : route (List String)) (fields : String → Option String),
      r ∈ (muxWith "" none [("/x", fieldLogger "codes"),
        ("/status/(?P<codes>[\\d,]+)", fieldLogger "codes")]).Routes ∧
      (∀ k, (fields k).isSome = true ↔ k ≠ "" ∧ k ∈ r.Pattern.SubexpNames) ∧
      (muxWith "" none [("/x", fieldLogger "codes"),
          ("/status/(?P<codes>[\\d,]+)", fieldLogger "codes")]).ServeHTTP plainStdlib noEnv []
          (originRequest "/status/200,404" "h" noHeader) [] =
        ⟨(r.Fn { makeExchange (muxWith "" none [("/x", fieldLogger "codes"),
              ("/status/(?P<codes>[\\d,]+)", fieldLogger "codes")]) []
              (originRequest "/status/200,404" "h" noHeader) with Fields := fields }
            []).1.ResponseWriter,
          (r.Fn { makeExchange (muxWith "" none [("/x", fieldLogger "codes"),
              ("/status/(?P<codes>[\\d,]+)", fieldLogger "codes")]) []
              (originRequest "/status/200,404" "h" noHeader) with Fields := fields } []).2,
          [.Handler 1 { makeExchange (muxWith "" none [("/x", fieldLogger "codes"),
              ("/status/(?P<codes>[\\d,]+)", fieldLogger "codes")]) []
              (originRequest "/status/200,404" "h" noHeader) with Fields := fields }]⟩) ∧
    ((muxWith "" none [("/x", fieldLogger "codes"),
        ("/status/(?P<codes>[\\d,]+)", fieldLogger "codes")]).ServeHTTP plainStdlib noEnv []
        (originRequest "/status/200,404" "h" noHeader) []).state = ["200,404"] ∧
    ((muxWith "" none [("/x", fieldLogger "other"),
        ("/status/(?P<codes>[\\d,]+)", fieldLogger "other")]).ServeHTTP plainStdlib noEnv []
        (originRequest "/status/200,404" "h" noHeader) []).state = ["(unset)"] := by
  obtain ⟨i, r, m, fields, hi, hm, hfirst, hkeys, _, _, hnone⟩ :=
    C2_named_captures plainStdlib noEnv
      (muxWith "" none [("/x", fieldLogger "codes"),
        ("/status/(?P<codes>[\\d,]+)", fieldLogger "codes")]) []
      (originRequest "/status/200,404" "h" noHeader) [] (by decide!) (by decide!) (by decide!)
      (by decide!)
  have h0 : ∀ r0 : route (List String),
      (muxWith "" none [("/x", fieldLogger "codes"),
        ("/status/(?P<codes>[\\d,]+)", fieldLogger "codes")]).Routes[0]? = some r0 →
      r0.Pattern.FindStringSubmatch
        (TrimPrefix (originRequest "/status/200,404" "h" noHeader).URL.Path
          (muxWith "" none [("/x", fieldLogger "codes"),
            ("/status/(?P<codes>[\\d,]+)", fieldLogger "codes")]).PathPrefix) = none := by
    decide!
  have hlen : (muxWith "" none [("/x", fieldLogger "codes"),
        ("/status/(?P<codes>[\\d,]+)", fieldLogger "codes")]).Routes.length = 2 := by
    decide!
  have hi1 : i = 1 := by
    have hlt : i < 2 := by
      rw [← hlen]
      by_contra hge
      rw [List.getElem?_eq_none (by omega)] at hi
      cases hi
    rcases Nat.lt_or_ge i 1 with hlt1 | hge1
    · have hi0 : i = 0 := by omega
      subst hi0
      rw [h0 r hi] at hm; cases hm
    · omega
  subst hi1
  exact ⟨by decide!, ⟨r, fields, List.getElem?_mem hi, hkeys,
    hnone (Option.isNone_iff_eq_none.1 (by decide!))⟩, by decide!,
    by decide!⟩

/-- C2 as stated fails at two inputs. (1) Pattern `/(?P<x>a)(?P<x>b)` on path
`/ab`: the groups 1 and 2 are both named `x` and matched `a` and `b`, and the
route handler reads `b` under `x`, not the `a` of group 1. (2) With a
`BeforeHandler` that sets a field, the handler of the route `/(?P<x>a)` reads
`1` under the key `extra`, which is no capture-group name of the route. -/
theorem C2_counterexample :
    ((muxWith "" none [("/(?P<x>a)(?P<x>b)", fieldLogger "x")]).Routes.map fun r =>
        (r.Pattern.SubexpNames, r.Pattern.FindStringSubmatch "/ab")) =
      [(["", "x", "x"], some ["/ab", "a", "b"])] ∧
    ((muxWith "" none [("/(?P<x>a)(?P<x>b)", fieldLogger "x")]).ServeHTTP plainStdlib noEnv []
      (originRequest "/ab" "h" noHeader) []).state = ["b"] ∧
    ¬ (∀ (j : Nat) (name : String), ["", "x", "x"][j]? = some name → name ≠ "" →
        ((muxWith "" none [("/(?P<x>a)(?P<x>b)", fieldLogger name)]).ServeHTTP plainStdlib noEnv
          [] (originRequest "/ab" "h" noHeader) []).state =
          [(["/ab", "a", "b"][j]?).getD "(unset)"]) ∧
    ((muxWith "" (some tagHandler) [("/(?P<x>a)", fieldLogger "extra")]).Routes.map fun r =>
        r.Pattern.SubexpNames) = [["", "x"]] ∧
    ((muxWith "" (some tagHandler) [("/(?P<x>a)", fieldLogger "extra")]).ServeHTTP plainStdlib
      noEnv [] (originRequest "/a" "h" noHeader) []).state = ["before", "1"] ∧
    ¬ (∀ k : String,
        ((muxWith "" (some tagHandler) [("/(?P<x>a)", fieldLogger k)]).ServeHTTP plainStdlib
          noEnv [] (originRequest "/a" "h" noHeader) []).state ≠ ["before", "(unset)"] →
        k ∈ ["", "x"]) := by
  refine ⟨by decide!, by decide!, fun h => ?_, by decide!, by decide!, fun h => ?_⟩
  · exact absurd (h 1 "x" rfl (by decide)) (by decide!)
  · exact absurd (h "extra" (by decide!)) (by decide)

/-- C3 (defect in `HandleFunc`). The pattern `/a|/b` is stored as `^/a|/b$`,
in which `^` binds to the first branch only and `$` to the last only. The
stored pattern accepts `/axyz`, of which `/a|/b` matches only the proper prefix
`/a`, and `/x/b`, of which it matches only the proper suffix `/b`; the router
dispatches `/axyz` to the route. -/
theorem C3_alternation_escapes_anchors :
    ((MustCompile ("^" ++ "/a|/b" ++ "$")).bind fun re => re.FindStringSubmatch "/axyz") =
      some ["/a"] ∧
    matchesWhole "/a|/b" "/axyz" = some regexp.Res.fail ∧
    ((MustCompile ("^" ++ "/a|/b" ++ "$")).bind fun re => re.FindStringSubmatch "/x/b") =
      some ["/b"] ∧
    matchesWhole "/a|/b" "/x/b" = some regexp.Res.fail ∧
    ((muxOf "" none ["/a|/b"]).ServeHTTP plainStdlib noEnv []
      (originRequest "/axyz" "h" noHeader) []).kinds = [Kind.Handler 0] := by
  decide!

/-- C9 (defect in the redirect target). For a request in absolute form,
`GET http://example.com/` with `X-Forwarded-Proto: http` and
`HTTPBUN_FORCE_HTTPS=1`, the router redirects to
`https://example.comhttp://example.com/`, which is not the HTTPS equivalent
`https://example.com/` of the requested URL. For the same request in origin
form the target is `https://example.com/`. -/
theorem C9_redirect_target_absolute_form :
    ((muxOf "" none ["/.*"]).ServeHTTP plainStdlib (oneEnv "HTTPBUN_FORCE_HTTPS" "1") []
      (absoluteRequest "example.com" "/" (oneHeader "X-Forwarded-Proto" ["http"])) []).w =
      [.Redirect "https://example.comhttp://example.com/" true] ∧
    ((muxOf "" none ["/.*"]).ServeHTTP plainStdlib (oneEnv "HTTPBUN_FORCE_HTTPS" "1") []
      (originRequest "/" "example.com" (oneHeader "X-Forwarded-Proto" ["http"])) []).w =
      [.Redirect "https://example.com/" true] := by
  decide!

/-- Bytes written by `le` are below 256. -/
theorem MD5.le_lt (k : Nat) : ∀ (n : Nat), ∀ x ∈ MD5.le n k, x < 256 := by
  induction k with
  | zero => intro n x hx; simp [MD5.le] at hx
  | succ k ih =>
    intro n x hx
    simp only [MD5.le, List.mem_cons] at hx
    rcases hx with rfl | hx
    · exact Nat.mod_lt _ (by decide)
    · exact ih _ x hx

theorem MD5.le_length (k : Nat) : ∀ (n : Nat), (MD5.le n k).length = k := by
  induction k with
  | zero => intro n; rfl
  | succ k ih => intro n; simp [MD5.le, ih]

theorem MD5.hexDigit_mem : ∀ d, d < 16 → MD5.hexDigit d ∈ "0123456789abcdef".data := by
  decide

/-- The hex digest is 32 characters, each a digit or a lowercase letter `a`-`f`. -/
theorem MD5.hexSum_lowercase (s : String) :
    (MD5.hexSum s).length = 32 ∧ ∀ c ∈ (MD5.hexSum s).data, c ∈ "0123456789abcdef".data := by
  constructor
  · have hlen : ∀ bs : List Nat,
        (bs.flatMap fun b => [MD5.hexDigit (b / 16), MD5.hexDigit (b % 16)]).length =
          2 * bs.length := by
      intro bs
      induction bs with
      | nil => rfl
      | cons b bs ih => simp only [List.flatMap_cons, List.length_append, ih]; simp; omega
    simp only [MD5.hexSum, MD5.EncodeToString, String.length, hlen, MD5.Sum, List.length_append,
      MD5.le_length]
  · intro c hc
    simp only [MD5.hexSum, MD5.EncodeToString, MD5.Sum, List.mem_flatMap, List.mem_append] at hc
    obtain ⟨b, hb, hc⟩ := hc
    have hb256 : b < 256 := by
      rcases hb with ((hb | hb) | hb) | hb <;> exact MD5.le_lt _ _ b hb
    simp only [List.mem_cons, List.mem_singleton, List.not_mem_nil, or_false] at hc
    rcases hc with rfl | rfl
    · exact MD5.hexDigit_mem _ (by omega)
    · exact MD5.hexDigit_mem _ (Nat.mod_lt _ (by decide))

/-- C6. The Digest response is the lowercase hex MD5 of
`HA1:nonce:nc:cnonce:qop:HA2`, with `HA1` the hex MD5 of
`username:testrealm@host.com:password` and `HA2` the hex MD5 of `method:uri`;
the digest is 32 lowercase hex characters; and the RFC 2617 example evaluates
to `6629fae49393a05397450978507c4ef1`. -/
theorem C6_digest_response :
    (∀ username password nonce nc cnonce qop method uri : String,
      computeDigestAuthResponse username password nonce nc cnonce qop method uri =
        MD5.hexSum (MD5.hexSum (username ++ ":" ++ "testrealm@host.com" ++ ":" ++ password)
          ++ ":" ++ nonce ++ ":" ++ nc ++ ":" ++ cnonce ++ ":" ++ qop ++ ":"
          ++ MD5.hexSum (method ++ ":" ++ uri)) ∧
      (computeDigestAuthResponse username password nonce nc cnonce qop method uri).length = 32 ∧
      ∀ c ∈ (computeDigestAuthResponse username password nonce nc cnonce qop method uri).data,
        c ∈ "0123456789abcdef".data) ∧
    computeDigestAuthResponse "Mufasa" "Circle Of Life" "dcd98b7102dd2f0e8b11d0f600bfb0c093"
      "00000001" "0a4f113b" "auth" "GET" "/dir/index.html" =
      "6629fae49393a05397450978507c4ef1" := by
  refine ⟨fun username password nonce nc cnonce qop method uri => ⟨rfl, ?_⟩, by decide!⟩
  exact MD5.hexSum_lowercase _

/-- The RFC 1321 test suite, and the response of `TestDigestAuthWitCreds`. -/
theorem MD5_test_vectors :
    MD5.hexSum "" = "d41d8cd98f00b204e9800998ecf8427e" ∧
    MD5.hexSum "a" = "0cc175b9c0f1b6a831c399e269772661" ∧
    MD5.hexSum "abc" = "900150983cd24fb0d6963f7d28e17f72" ∧
    MD5.hexSum "message digest" = "f96b697d7cb7938d525a2f31aaf161d0" ∧
    MD5.hexSum "abcdefghijklmnopqrstuvwxyz" = "c3fcd3d76192e4007dfb496cca67e13b" ∧
    MD5.hexSum "ABCDEFGHIJKLMNOPQRSTUVWXYZabcdefghijklmnopqrstuvwxyz0123456789" =
      "d174ab98d277d9f5a5611c2c9f419d9f" ∧
    MD5.hexSum ("1234567890123456789012345678901234567890" ++
        "1234567890123456789012345678901234567890") = "57edf4a22be3c955ac49da2e2107b67a" ∧
    computeDigestAuthResponse "dave" "diamond" "d9fc96d7fe39099441042eea21006d77" "00000001"
      "bb2ec71d21a27e19" "auth" "GET" "/digest-auth/auth/dave/diamond" =
      "10c1132a06ac0de7c39a07e8553f0f14" := by
  decide!

end Httpbun
